import Mathlib

/-!
Shallow embedding of the clustering core of the `pdf-brain` repository
(`src/services/Database.ts`, clustering section, and the cluster-to-concept
mapper service) together with proofs of the specified properties.

Modelling conventions, applied uniformly:

* JavaScript `number[]` vectors are modelled as `List ℚ` (exact arithmetic
  stands in for IEEE floats; every settled property is about counts, control
  flow, argmin/comparison structure or exact algebraic identities, none of
  which depend on rounding).
* `Math.sqrt` appears in the source only inside comparisons
  (`euclideanDistance(a,b) < minDist`, `Math.sqrt(sumSq) < 1e-4`) or is
  immediately squared again (`euclideanDistance(...) ** 2`).  Since `sqrt` is
  strictly monotone on nonnegative reals, every such comparison is equivalent
  to the comparison of the squared quantities; the model therefore works with
  squared Euclidean distances throughout and squares the thresholds.
* `Math.exp` and `Math.log` are transcendental; the soft-clustering and
  BIC-scan definitions take them as explicit function parameters (`expA`,
  `logA`), and the theorems hold for every choice (with positivity of `expA`
  as a hypothesis where the source relies on it).  For the value-level BIC
  formula claim a second definition `calculateBICLog` instantiates the
  logarithm with `Real.log`.
* `Math.random()` driven choices (k-means++ seeding, mini-batch sampling) are
  modelled by oracle parameters (`randIdx`, `randThresh`, `batches`); all
  theorems are quantified over every oracle.
* Out-of-range JavaScript index accesses evaluate to `undefined` and produce
  `NaN` under arithmetic; the model uses `List.getD _ _ 0` (default `0`).
  No settled property depends on the numeric value produced at an
  out-of-range access, only on the fact that no exception is raised.
* Thrown `Error`s (caught by `Effect.try` and wrapped in `ClusteringError`)
  are modelled by `Except String`, carrying the source's message text.
-/

namespace PdfBrain

/-- An embedding vector (`number[]` in the source). -/
abbrev Vec := List ℚ

/-- Squared Euclidean distance.  Source (`euclideanDistance`):
`Math.sqrt(a.reduce((sum, val, i) => sum + (val - b[i]) ** 2, 0))` — the
reduce runs over the indices of `a`; the model sums the same summands (ℚ
addition is associative and commutative) and omits the final `Math.sqrt`
(see the header: only comparisons and re-squarings of this value occur). -/
def euclideanDistSq (a b : Vec) : ℚ :=
  ((List.range a.length).map (fun i => (a.getD i 0 - b.getD i 0) ^ 2)).sum

/-- Source (`meanVector`): returns `[]` for no vectors, else accumulates the
component-wise running sums into a zero array of the first vector's length
and divides by the count. -/
def meanVector (vectors : List Vec) : Vec :=
  match vectors with
  | [] => []
  | v0 :: _ =>
    let dims := v0.length
    let mean := vectors.foldl
      (fun (m : Vec) v => (List.range dims).map (fun i => m.getD i 0 + v.getD i 0))
      (List.replicate dims (0 : ℚ))
    mean.map (fun x => x / (vectors.length : ℚ))

/-- One step of the running-minimum scan behind every nearest-centroid
loop: replace the best `(distance, index)` seen so far on strict `<`
(`if (dist < minDist)` in the source). -/
def nearestStep (v : Vec) (centroids : List Vec)
    (best : Option ℚ × ℕ) (i : ℕ) : Option ℚ × ℕ :=
  let dist := euclideanDistSq v (centroids.getD i [])
  match best.1 with
  | none => (some dist, i)
  | some m => if dist < m then (some dist, i) else best

/-- Index of the nearest centroid to `v`.  Source (the assignment loop in
`kMeans`, `miniBatchKMeans` and the final pass): starts with
`minDist = Infinity; minIdx = 0` and replaces on strict `<`.  `Infinity` is
modelled by `Option ℚ` (`none` compares above everything). -/
def nearestIdx (v : Vec) (centroids : List Vec) : ℕ :=
  ((List.range centroids.length).foldl (nearestStep v centroids)
    ((none : Option ℚ), 0)).2

/-- One assignment pass: `vectors.map(v => argmin over centroids)`. -/
def assignStep (vectors centroids : List Vec) : List ℕ :=
  vectors.map (fun v => nearestIdx v centroids)

/-- Source: `vectors.filter((_, idx) => assignments[idx] === i)`.  The model
pairs each vector with its assignment (the two lists always have equal
length at the call sites). -/
def membersOf (vectors : List Vec) (assignments : List ℕ) (i : ℕ) : List Vec :=
  ((vectors.zip assignments).filter (fun p => p.2 = i)).map (fun p => p.1)

/-- Centroid update loop of `kMeans`: for each cluster id, the mean of its
members if it has any, otherwise the previous centroid is kept unchanged. -/
def updateCentroids (vectors : List Vec) (assignments : List ℕ)
    (centroids : List Vec) : List Vec :=
  (List.range centroids.length).map (fun i =>
    let clusterVectors := membersOf vectors assignments i
    if 0 < clusterVectors.length then meanVector clusterVectors
    else centroids.getD i [])

/-- The `for (iter = 0; iter < maxIterations; iter++)` loop of `kMeans`:
compute the new assignment vector, stop (`break`) if it equals the previous
one exactly, else update the centroids from the new assignments and
continue.  The fuel counts the remaining iterations. -/
def kMeansLoop (vectors : List Vec) :
    ℕ → List Vec → List ℕ → List Vec × List ℕ
  | 0, centroids, assignments => (centroids, assignments)
  | fuel + 1, centroids, assignments =>
    let newAssignments := assignStep vectors centroids
    if newAssignments = assignments then (centroids, assignments)
    else kMeansLoop vectors fuel
      (updateCentroids vectors newAssignments centroids) newAssignments

/-- `Math.min(...centroids.map(c => euclideanDistance(v, c)))`, squared
(`minDist * minDist` in the source; min and squaring commute with dropping
`sqrt`).  The empty case cannot occur at the call site (the centroid list
starts non-empty); `0` is an arbitrary total default. -/
def minDistSqTo (centroids : List Vec) (v : Vec) : ℚ :=
  match centroids.map (fun c => euclideanDistSq v c) with
  | [] => 0
  | d :: ds => ds.foldl min d

/-- The inner `for (j...) { threshold -= distances[j]; if (threshold <= 0) }`
scan of `kMeansPlusPlusInit`: index of the first prefix whose running sum
reaches the threshold, `none` if the scan falls through. -/
def ppThresholdPick : List ℚ → ℚ → Option ℕ
  | [], _ => none
  | d :: ds, t =>
    if t - d ≤ 0 then some 0
    else (ppThresholdPick ds (t - d)).map (· + 1)

/-- One iteration of the k-means++ seeding loop: sample a next centroid
proportionally to squared distance from the nearest chosen one, with the
source's fallback (`if (centroids.length === i)`) to a random point.
`randThresh i` stands for the `Math.random()` draw of iteration `i`,
`randIdx i` for the fallback's random index (reduced mod `n` since the
source draws it in `[0, n)`). -/
def ppInitStep (vectors : List Vec) (randIdx : ℕ → ℕ) (randThresh : ℕ → ℚ)
    (centroids : List Vec) (i : ℕ) : List Vec :=
  let distances := vectors.map (fun v => minDistSqTo centroids v)
  let totalDist := distances.sum
  let threshold := randThresh i * totalDist
  match ppThresholdPick distances threshold with
  | some j => centroids ++ [vectors.getD j []]
  | none => centroids ++ [vectors.getD (randIdx i % vectors.length) []]

/-- `kMeansPlusPlusInit`: first centroid a random point, then `k - 1`
distance-weighted draws. -/
def kMeansPlusPlusInit (vectors : List Vec) (k : ℕ)
    (randIdx : ℕ → ℕ) (randThresh : ℕ → ℚ) : List Vec :=
  (List.range' 1 (k - 1)).foldl (ppInitStep vectors randIdx randThresh)
    [vectors.getD (randIdx 0 % vectors.length) []]

/-- `kMeans`: input validation (in source order), k-means++ seeding, an
all-zeros initial assignment vector, then the iteration loop.  `k : ℕ`
models the source's `k <= 0` check as `k = 0`. -/
def kMeans (vectors : List Vec) (k maxIterations : ℕ)
    (randIdx : ℕ → ℕ) (randThresh : ℕ → ℚ) :
    Except String (List Vec × List ℕ) :=
  if vectors.length = 0 then .error "Cannot cluster empty vector array"
  else if k = 0 then .error "k must be positive"
  else if vectors.length < k then .error "k cannot exceed number of vectors"
  else
    let centroids := kMeansPlusPlusInit vectors k randIdx randThresh
    let assignments := List.replicate vectors.length 0
    .ok (kMeansLoop vectors maxIterations centroids assignments)

/-- `Cluster` record of the service layer. -/
structure Cluster where
  id : ℕ
  centroid : Vec
  size : ℕ
  deriving DecidableEq

/-- `ClusterAssignment` record.  `distanceSq` carries the squared distance
(the source stores `euclideanDistance(...)`; no claim refers to the stored
value, see the header). -/
structure ClusterAssignment where
  id : String
  clusterId : ℕ
  distanceSq : ℚ
  deriving DecidableEq

/-- `ClusterResult` record. -/
structure ClusterResult where
  clusters : List Cluster
  assignments : List ClusterAssignment
  deriving DecidableEq

/-- Shared result assembly of `ClusteringServiceImpl.cluster` and
`.clusterMiniBatch`: cluster metadata (`size` counts matching assignments)
and per-embedding assignments with distances. -/
def buildClusterResult (embeddings : List (String × Vec))
    (centroids : List Vec) (assignments : List ℕ) : ClusterResult :=
  { clusters := centroids.enum.map (fun p =>
      { id := p.1
        centroid := p.2
        size := (assignments.filter (fun a => a = p.1)).length })
    assignments := (embeddings.zip assignments).map (fun p =>
      { id := p.1.1
        clusterId := p.2
        distanceSq := euclideanDistSq p.1.2 (centroids.getD p.2 []) }) }

/-- `ClusteringServiceImpl.cluster`: run `kMeans` over the embedding vectors
and assemble the `ClusterResult`; a thrown error becomes the
`ClusteringError` channel (`Except.error`). -/
def cluster (embeddings : List (String × Vec)) (k maxIterations : ℕ)
    (randIdx : ℕ → ℕ) (randThresh : ℕ → ℚ) : Except String ClusterResult :=
  match kMeans (embeddings.map (fun e => e.2)) k maxIterations randIdx randThresh with
  | .error e => .error e
  | .ok (centroids, assignments) =>
    .ok (buildClusterResult embeddings centroids assignments)

/-! ### Mini-batch k-means (`miniBatchKMeans`) -/

/-- `centroidDelta`, squared (`Math.sqrt(sumSq)` is only compared against
`1e-4`, equivalently `sumSq < 1e-8`). -/
def centroidDeltaSq (old new : List Vec) : ℚ :=
  ((List.range old.length).map (fun i =>
    ((List.range (old.getD i []).length).map (fun d =>
      ((old.getD i []).getD d 0 - (new.getD i []).getD d 0) ^ 2)).sum)).sum

/-- The incremental centroid update applied per sampled point
(`p = (vectorIdx, clusterIdx)`): bump the centroid's count, set the learning
rate `η = 1/count`, and move the centroid to `(1-η)·c + η·x`. -/
def miniBatchStep (vectors : List Vec) (st : List Vec × List ℕ)
    (p : ℕ × ℕ) : List Vec × List ℕ :=
  let vectorIdx := p.1
  let clusterIdx := p.2
  let newCount := st.2.getD clusterIdx 0 + 1
  let eta : ℚ := 1 / (newCount : ℚ)
  let c := st.1.getD clusterIdx []
  let v := vectors.getD vectorIdx []
  let c' := (List.range c.length).map (fun d =>
    (1 - eta) * c.getD d 0 + eta * v.getD d 0)
  (st.1.set clusterIdx c', st.2.set clusterIdx newCount)

/-- One mini-batch iteration body: assign every sampled point to its nearest
centroid (against the centroids as they stand at the start of the
iteration), then fold the incremental updates over the batch in order,
threading the per-centroid counts. -/
def miniBatchUpdate (vectors : List Vec) (centroids : List Vec)
    (counts : List ℕ) (batch : List ℕ) : List Vec × List ℕ :=
  let batchAssignments := batch.map (fun idx => nearestIdx (vectors.getD idx []) centroids)
  (batch.zip batchAssignments).foldl (miniBatchStep vectors) (centroids, counts)

/-- The mini-batch iteration loop.  `batches iter` is the oracle supplying
iteration `iter`'s random sample (the source's rejection-sampling `while`
loop draws `min(batchSize, n)` distinct indices in `[0, n)`; its termination
depends on the random stream, so the sample itself is the oracle).  Every
10th iteration (`iter % 10 === 0 && iter > 0`) the loop compares the
centroids against the snapshot from the previous check and stops early when
the squared Frobenius delta falls below `1e-8` (source: norm below `1e-4`).
Returns the final centroids. -/
def miniBatchLoop (vectors : List Vec) (batches : ℕ → List ℕ) :
    ℕ → ℕ → List Vec → List ℕ → List Vec → List Vec
  | _, 0, centroids, _, _ => centroids
  | iter, fuel + 1, centroids, counts, prev =>
    let st := miniBatchUpdate vectors centroids counts (batches iter)
    if iter % 10 = 0 ∧ 0 < iter then
      if centroidDeltaSq prev st.1 < 1 / 10 ^ 8 then st.1
      else miniBatchLoop vectors batches (iter + 1) fuel st.1 st.2 st.1
    else miniBatchLoop vectors batches (iter + 1) fuel st.1 st.2 prev

/-- `miniBatchKMeans`: the same input validation as `kMeans` (same messages,
same order), k-means++ seeding, the mini-batch loop, then the final full
pass assigning every point to its nearest final centroid.  `batchSize` only
parameterizes the oracle-supplied sampling (see `miniBatchLoop`). -/
def miniBatchKMeans (vectors : List Vec) (k batchSize maxIterations : ℕ)
    (randIdx : ℕ → ℕ) (randThresh : ℕ → ℚ) (batches : ℕ → List ℕ) :
    Except String (List Vec × List ℕ) :=
  if vectors.length = 0 then .error "Cannot cluster empty vector array"
  else if k = 0 then .error "k must be positive"
  else if vectors.length < k then .error "k cannot exceed number of vectors"
  else
    let _ := batchSize
    let centroids0 := kMeansPlusPlusInit vectors k randIdx randThresh
    let counts0 := List.replicate k 0
    let finalCentroids := miniBatchLoop vectors batches 0 maxIterations centroids0 counts0 centroids0
    let assignments := vectors.map (fun v => nearestIdx v finalCentroids)
    .ok (finalCentroids, assignments)

/-- `ClusteringServiceImpl.clusterMiniBatch`. -/
def clusterMiniBatch (embeddings : List (String × Vec)) (k batchSize maxIterations : ℕ)
    (randIdx : ℕ → ℕ) (randThresh : ℕ → ℚ) (batches : ℕ → List ℕ) :
    Except String ClusterResult :=
  match miniBatchKMeans (embeddings.map (fun e => e.2)) k batchSize maxIterations
      randIdx randThresh batches with
  | .error e => .error e
  | .ok (centroids, assignments) =>
    .ok (buildClusterResult embeddings centroids assignments)

/-! ### Soft clustering (`softmax`, `softCluster`, `calculateBIC`,
`ClusteringServiceImpl.clusterSoft`) -/

/-- `softmax(distances, temperature)`: negate and scale by the temperature,
subtract the maximum score (`Math.max(...scores)`; the list is non-empty at
every call site — `0` is the total default for `[]`), exponentiate with the
abstract `expA` (standing for `Math.exp`), normalize by the sum. -/
def softmax (expA : ℚ → ℚ) (distances : List ℚ) (temperature : ℚ) : List ℚ :=
  let scores := distances.map (fun d => -d / temperature)
  let maxScore := match scores with
    | [] => 0
    | s :: ss => ss.foldl max s
  let expScores := scores.map (fun s => expA (s - maxScore))
  let sumExp := expScores.sum
  expScores.map (fun e => e / sumExp)

/-- Raw soft assignment produced by `softCluster` (`vectorIdx` is the point's
index in the input order). -/
structure SoftRaw where
  vectorIdx : ℕ
  clusterId : ℕ
  probability : ℚ
  deriving DecidableEq

/-- `softCluster`: run `kMeans` for the centroids (the hard assignments are
discarded), then for every point the vector of distances to all centroids is
pushed through `softmax` and one raw assignment per `(point, cluster)` pair
is emitted, `j` ranging over `0 ≤ j < k` in the source's inner loop.
`sqrtA` stands for `Math.sqrt` in `euclideanDistance` (the softmax input is
the plain, not squared, distance). -/
def softCluster (vectors : List Vec) (k maxIterations : ℕ) (temperature : ℚ)
    (sqrtA expA : ℚ → ℚ) (randIdx : ℕ → ℕ) (randThresh : ℕ → ℚ) :
    Except String (List Vec × List SoftRaw) :=
  match kMeans vectors k maxIterations randIdx randThresh with
  | .error e => .error e
  | .ok (centroids, _) =>
    let raws := (List.range vectors.length).flatMap (fun i =>
      let distances := centroids.map (fun c => sqrtA (euclideanDistSq (vectors.getD i []) c))
      let probs := softmax expA distances temperature
      (List.range k).map (fun j =>
        { vectorIdx := i, clusterId := j, probability := probs.getD j 0 }))
    .ok (centroids, raws)

/-- `calculateBIC` with the logarithm abstracted (`logA` stands for
`Math.log`); used by the BIC scan, whose claims hold for every `logA`.
`rss` accumulates `euclideanDistance(...) ** 2`, which is exactly the
squared distance.  `numParams` uses ℚ subtraction (`numClusters - 1` is a
JavaScript number). -/
def calculateBIC (logA : ℚ → ℚ) (vectors centroids : List Vec)
    (assignments : List ℕ) : ℚ :=
  let n := vectors.length
  let numClusters := centroids.length
  let dims := (vectors.getD 0 []).length
  let rss := ((List.range n).map (fun i =>
    euclideanDistSq (vectors.getD i []) (centroids.getD (assignments.getD i 0) []))).sum
  let numParams : ℚ := (numClusters : ℚ) * (dims : ℚ) + ((numClusters : ℚ) - 1)
  (n : ℚ) * logA ((rss + 1 / 10 ^ 10) / (n : ℚ)) + numParams * logA (n : ℚ)

/-- The `for (k = minK; k <= maxK; k++)` selection loop of `clusterSoft`:
`score k` is `some bic` when the clustering run for `k` succeeds (the
`try`), `none` when it throws (the `catch` skips the k).  State:
`(bicScores, bestK, bestBIC)`, with `bestK = 1` and `bestBIC = Infinity`
(modelled `none`) initially, updating on strict `<`. -/
def bicScanStep (score : ℕ → Option ℚ) (st : List (ℕ × ℚ) × ℕ × Option ℚ)
    (k : ℕ) : List (ℕ × ℚ) × ℕ × Option ℚ :=
  match score k with
  | none => st
  | some bic =>
    let scores' := st.1 ++ [(k, bic)]
    match st.2.2 with
    | none => (scores', k, some bic)
    | some b => if bic < b then (scores', k, some bic) else (scores', st.2.1, some b)

def bicScan (score : ℕ → Option ℚ) (maxK : ℕ) :
    List (ℕ × ℚ) × ℕ × Option ℚ :=
  (List.range' 1 maxK).foldl (bicScanStep score) ([], 1, none)

/-- A concrete scorer exercising the skip path of the selection loop
(`k = 2` "throws"); used to instantiate the selection theorem. -/
def skipScore (k : ℕ) : Option ℚ :=
  if k = 2 then none else some (k : ℚ)

/-- `SoftClusterAssignment` record (`chunkId`, `clusterId`,
`probability`). -/
structure SoftClusterAssignment where
  chunkId : String
  clusterId : ℕ
  probability : ℚ
  deriving DecidableEq

/-- `ClusterCentroid` record. -/
structure ClusterCentroid where
  clusterId : ℕ
  vector : Vec
  deriving DecidableEq

/-- `SoftClusterResult`.  `metadata` is `some (bicScores, selectedK)` when
`useBIC` is set on the main path and `none` otherwise (the source's `{}` of
the degenerate paths and `undefined` are both modelled as `none`; no claim
distinguishes them). -/
structure SoftClusterResult where
  numClusters : ℕ
  softAssignments : List SoftClusterAssignment
  centroids : List ClusterCentroid
  metadata : Option (List (ℕ × ℚ) × ℕ)
  deriving DecidableEq

/-- The per-`k` score used by `clusterSoft`'s selection loop: run `kMeans`,
score with `calculateBIC`; `none` models the thrown/caught case. -/
def clusterSoftScore (logA : ℚ → ℚ) (vectors : List Vec) (maxIterations : ℕ)
    (randIdx : ℕ → ℕ) (randThresh : ℕ → ℚ) (k : ℕ) : Option ℚ :=
  match kMeans vectors k maxIterations randIdx randThresh with
  | .error _ => none
  | .ok (centroids, assignments) => some (calculateBIC logA vectors centroids assignments)

/-- `ClusteringServiceImpl.clusterSoft`: degenerate cases for 0 and 1
points, dimension validation (the source throws at the first index whose
length differs from `vectors[0].length`; the interpolated message is
abbreviated), BIC-driven selection of `k` when `useBIC && maxK > 1` (else
`bestK = maxK`), a final `softCluster` run at the chosen `k` with the
default temperature `0.5`, and the `minProbability` filter mapping raw
assignments to chunk ids. -/
def clusterSoft (embeddings : List (String × Vec))
    (maxClusters : ℕ) (minProbability : ℚ) (useBIC : Bool) (maxIterations : ℕ)
    (logA sqrtA expA : ℚ → ℚ) (randIdx : ℕ → ℕ) (randThresh : ℕ → ℚ) :
    Except String SoftClusterResult :=
  if embeddings.length = 0 then
    .ok { numClusters := 0, softAssignments := [], centroids := [], metadata := none }
  else if embeddings.length = 1 then
    .ok { numClusters := 1
          softAssignments := [{ chunkId := (embeddings.getD 0 ("", [])).1
                                clusterId := 0, probability := 1 }]
          centroids := [{ clusterId := 0, vector := (embeddings.getD 0 ("", [])).2 }]
          metadata := none }
  else
    let vectors := embeddings.map (fun e => e.2)
    let dims := (vectors.getD 0 []).length
    if vectors.any (fun v => v.length ≠ dims) then .error "Dimension mismatch"
    else
      let maxK := min maxClusters vectors.length
      let scan := if useBIC ∧ 1 < maxK then
          bicScan (clusterSoftScore logA vectors maxIterations randIdx randThresh) maxK
        else ([], maxK, none)
      let bestK := scan.2.1
      match softCluster vectors bestK maxIterations (1 / 2) sqrtA expA randIdx randThresh with
      | .error e => .error e
      | .ok (centroids, rawAssignments) =>
        let softAssignments := (rawAssignments.filter
            (fun a => minProbability ≤ a.probability)).map (fun a =>
          { chunkId := (embeddings.getD a.vectorIdx ("", [])).1
            clusterId := a.clusterId
            probability := a.probability })
        let clusterCentroids := centroids.enum.map (fun p =>
          { clusterId := p.1, vector := p.2 })
        .ok { numClusters := bestK
              softAssignments := softAssignments
              centroids := clusterCentroids
              metadata := if useBIC = true then some (scan.1, bestK) else none }

/-! ### Value-level BIC (`calculateBIC` with `Math.log` as `Real.log`)

For the claim about the BIC *formula* the logarithm must be the actual one;
`calculateBICLog` is the same translation of `calculateBIC` as above with
`Real.log` in place of the abstract `logA` (ℚ quantities are cast into ℝ;
`1e-10` is the literal `1 / 10 ^ 10`). -/

/-- The residual sum of squares of `calculateBIC`: the source accumulates
`euclideanDistance(vectors[i], centroids[assignments[i]]) ** 2`, and
squaring the Euclidean norm recovers exactly the squared distance. -/
def bicRSS (vectors centroids : List Vec) (assignments : List ℕ) : ℚ :=
  ((List.range vectors.length).map (fun i =>
    euclideanDistSq (vectors.getD i []) (centroids.getD (assignments.getD i 0) []))).sum

/-- `calculateBIC` with `Math.log` modelled as `Real.log`. -/
noncomputable def calculateBICLog (vectors centroids : List Vec)
    (assignments : List ℕ) : ℝ :=
  let n := vectors.length
  let numClusters := centroids.length
  let dims := (vectors.getD 0 []).length
  let rss := bicRSS vectors centroids assignments
  let numParams : ℝ := (numClusters : ℝ) * (dims : ℝ) + ((numClusters : ℝ) - 1)
  (n : ℝ) * Real.log (((rss : ℝ) + 1 / 10 ^ 10) / (n : ℝ)) + numParams * Real.log (n : ℝ)

/-- The BIC formula exactly as the specification states it:
`BIC(k) = n·ln(RSS(k)/n + ε) + p(k)·ln(n)` with `p(k) = k·d + (k-1)` and
`ε` the source's guard constant `1e-10` (the only ε the code contains).
This definition follows the spec's words, for comparison against
`calculateBICLog`, which follows the code. -/
noncomputable def specStatedBIC (vectors centroids : List Vec)
    (assignments : List ℕ) : ℝ :=
  let n := vectors.length
  let k := centroids.length
  let d := (vectors.getD 0 []).length
  let rss := bicRSS vectors centroids assignments
  let p : ℝ := (k : ℝ) * (d : ℝ) + ((k : ℝ) - 1)
  (n : ℝ) * Real.log ((rss : ℝ) / (n : ℝ) + 1 / 10 ^ 10) + p * Real.log (n : ℝ)

/-! ### Cluster-to-concept mapper (`ClusterConceptMapper`) -/

/-- `ClusterInput` of the mapper service. -/
structure ClusterInput where
  id : ℕ
  summary : String
  centroid : Vec
  deriving DecidableEq

/-- `ConceptInput` (SKOS concept with embedding). -/
structure ConceptInput where
  id : String
  label : String
  embedding : Vec
  deriving DecidableEq

instance : Inhabited ConceptInput := ⟨⟨"", "", []⟩⟩

/-- `MapResult` of the mapper service. -/
structure MapResult where
  clusterId : ℕ
  matched : Bool
  conceptId : Option String
  confidence : Option ℚ
  suggestedLabel : Option String
  deriving DecidableEq

/-- `cosineSimilarity` of the mapper service: `0` on mismatched lengths
(before any arithmetic), else `dot / (sqrt(normA) * sqrt(normB))` — the
accumulation loops become sums, `Math.sqrt` is the abstract `sqrtA`.
(For equal-length vectors the zip covers exactly the source's index loop.)
JavaScript yields `NaN` for the all-zero 0/0 case where ℚ yields `0`; no
settled property touches that case. -/
def cosineSimilarity (sqrtA : ℚ → ℚ) (a b : Vec) : ℚ :=
  if a.length ≠ b.length then 0
  else
    let dotProduct := ((a.zip b).map (fun p => p.1 * p.2)).sum
    let normA := (a.map (fun x => x * x)).sum
    let normB := (b.map (fun x => x * x)).sum
    dotProduct / (sqrtA normA * sqrtA normB)

/-- The suggested-label fallback of `mapCluster`:
`cluster.summary.split(/[.!?]/)[0].slice(0, 50)` — the first split field is
the prefix up to the first sentence delimiter, then the first 50
characters. -/
def suggestedLabelOf (summary : String) : String :=
  String.mk ((summary.data.takeWhile
    (fun c => ¬(c = '.' ∨ c = '!' ∨ c = '?'))).take 50)

/-- One step of `mapCluster`'s scanning loop: consider the concept only if
its similarity reaches the threshold, and replace the running best only on
strictly greater similarity
(`!bestMatch || similarity > bestMatch.similarity`). -/
def conceptStep (sqrtA : ℚ → ℚ) (centroid : Vec) (threshold : ℚ)
    (best : Option (String × ℚ)) (concept : ConceptInput) : Option (String × ℚ) :=
  let similarity := cosineSimilarity sqrtA centroid concept.embedding
  if threshold ≤ similarity then
    match best with
    | none => some (concept.id, similarity)
    | some b => if b.2 < similarity then some (concept.id, similarity) else some b
  else best

/-- The scanning loop of `mapCluster`: fold over the concepts in input
order. -/
def mapClusterFold (sqrtA : ℚ → ℚ) (centroid : Vec) (threshold : ℚ)
    (concepts : List ConceptInput) : Option (String × ℚ) :=
  concepts.foldl (conceptStep sqrtA centroid threshold) none

/-- `ClusterConceptMapperImpl.mapCluster`: best thresholded match or the
suggested-label fallback. -/
def mapCluster (sqrtA : ℚ → ℚ) (cluster : ClusterInput)
    (concepts : List ConceptInput) (threshold : ℚ) : MapResult :=
  match mapClusterFold sqrtA cluster.centroid threshold concepts with
  | some best =>
    { clusterId := cluster.id, matched := true, conceptId := some best.1
      confidence := some best.2, suggestedLabel := none }
  | none =>
    { clusterId := cluster.id, matched := false, conceptId := none
      confidence := none, suggestedLabel := some (suggestedLabelOf cluster.summary) }

/-! ### Helper lemmas -/

lemma getD_map_range {α : Type} (f : ℕ → α) {n j : ℕ} (d : α) (h : j < n) :
    ((List.range n).map f).getD j d = f j := by
  simp [List.getD, List.getElem?_map, List.getElem?_range h]

lemma length_ppInitFold (vectors : List Vec) (randIdx : ℕ → ℕ)
    (randThresh : ℕ → ℚ) (l : List ℕ) (cs : List Vec) :
    (l.foldl (ppInitStep vectors randIdx randThresh) cs).length
      = cs.length + l.length := by
  induction l generalizing cs with
  | nil => simp
  | cons i l ih =>
    have hstep : (ppInitStep vectors randIdx randThresh cs i).length = cs.length + 1 := by
      unfold ppInitStep
      cases hpick : ppThresholdPick (vectors.map (fun v => minDistSqTo cs v))
          (randThresh i * (vectors.map (fun v => minDistSqTo cs v)).sum) with
      | none => simp [hpick]
      | some j => simp [hpick]
    simp only [List.foldl_cons, ih, hstep, List.length_cons]
    omega

lemma length_kMeansPlusPlusInit (vectors : List Vec) (k : ℕ) (hk : 0 < k)
    (randIdx : ℕ → ℕ) (randThresh : ℕ → ℚ) :
    (kMeansPlusPlusInit vectors k randIdx randThresh).length = k := by
  unfold kMeansPlusPlusInit
  rw [length_ppInitFold]
  simp
  omega

/-- Invariant of the running-minimum fold behind `nearestIdx`, after the
first `n` indices: the state holds the distance and index of the first
minimizer among them. -/
lemma nearestFold_inv (v : Vec) (c : List Vec) (n : ℕ) (h1 : 1 ≤ n) :
    ((List.range n).foldl (nearestStep v c) ((none : Option ℚ), 0)).1
        = some (euclideanDistSq v
            (c.getD ((List.range n).foldl (nearestStep v c) ((none : Option ℚ), 0)).2 [])) ∧
      ((List.range n).foldl (nearestStep v c) ((none : Option ℚ), 0)).2 < n ∧
      (∀ j, j < n →
        euclideanDistSq v
            (c.getD ((List.range n).foldl (nearestStep v c) ((none : Option ℚ), 0)).2 [])
          ≤ euclideanDistSq v (c.getD j [])) ∧
      (∀ j, j < ((List.range n).foldl (nearestStep v c) ((none : Option ℚ), 0)).2 →
        euclideanDistSq v
            (c.getD ((List.range n).foldl (nearestStep v c) ((none : Option ℚ), 0)).2 [])
          < euclideanDistSq v (c.getD j [])) := by
  induction n with
  | zero => omega
  | succ n ih =>
    rcases Nat.eq_or_lt_of_le h1 with h | h
    · have hn0 : n = 0 := by omega
      subst hn0
      have hr1 : List.range 1 = [0] := rfl
      rw [hr1, List.foldl_cons, List.foldl_nil]
      have hstep : nearestStep v c ((none : Option ℚ), 0) 0
          = (some (euclideanDistSq v (c.getD 0 [])), 0) := rfl
      rw [hstep]
      refine ⟨rfl, by omega, ?_, by omega⟩
      intro j hj
      have hj0 : j = 0 := by omega
      simp [hj0]
    · have hn : 1 ≤ n := by omega
      obtain ⟨hsome, hlt, hmin, hfirst⟩ := ih hn
      rw [List.range_succ, List.foldl_append, List.foldl_cons, List.foldl_nil]
      set st := (List.range n).foldl (nearestStep v c) ((none : Option ℚ), 0) with hst
      by_cases hcmp : euclideanDistSq v (c.getD n []) < euclideanDistSq v (c.getD st.2 [])
      · have hst' : nearestStep v c st n
            = (some (euclideanDistSq v (c.getD n [])), n) := by
          unfold nearestStep
          simp only [hsome]
          rw [if_pos hcmp]
        rw [hst']
        refine ⟨rfl, by omega, ?_, ?_⟩
        · intro j hj
          rcases Nat.lt_or_ge j n with hj' | hj'
          · exact le_trans (le_of_lt hcmp) (hmin j hj')
          · have hjn : j = n := by omega
            simp [hjn]
        · intro j hj
          exact lt_of_lt_of_le hcmp (hmin j hj)
      · have hst' : nearestStep v c st n = st := by
          unfold nearestStep
          simp only [hsome]
          rw [if_neg hcmp]
        rw [hst']
        refine ⟨hsome, by omega, ?_, hfirst⟩
        intro j hj
        rcases Nat.lt_or_ge j n with hj' | hj'
        · exact hmin j hj'
        · have hjn : j = n := by omega
          subst hjn
          exact le_of_not_gt hcmp

lemma nearestIdx_spec (v : Vec) (c : List Vec) (hc : c ≠ []) :
    nearestIdx v c < c.length ∧
      (∀ j, j < c.length →
        euclideanDistSq v (c.getD (nearestIdx v c) []) ≤ euclideanDistSq v (c.getD j [])) ∧
      (∀ j, j < nearestIdx v c →
        euclideanDistSq v (c.getD (nearestIdx v c) []) < euclideanDistSq v (c.getD j [])) := by
  have h1 : 1 ≤ c.length := List.length_pos.mpr hc
  obtain ⟨_, hlt, hmin, hfirst⟩ := nearestFold_inv v c c.length h1
  exact ⟨hlt, hmin, hfirst⟩

lemma nearestIdx_lt (v : Vec) (c : List Vec) (hc : c ≠ []) :
    nearestIdx v c < c.length :=
  (nearestIdx_spec v c hc).1

lemma length_assignStep (vectors centroids : List Vec) :
    (assignStep vectors centroids).length = vectors.length := by
  simp [assignStep]

lemma mem_assignStep_lt (vectors centroids : List Vec) (hc : centroids ≠ [])
    (x : ℕ) (hx : x ∈ assignStep vectors centroids) : x < centroids.length := by
  simp only [assignStep, List.mem_map] at hx
  obtain ⟨v, _, rfl⟩ := hx
  exact nearestIdx_lt v centroids hc

lemma length_updateCentroids (vectors : List Vec) (assignments : List ℕ)
    (centroids : List Vec) :
    (updateCentroids vectors assignments centroids).length = centroids.length := by
  simp [updateCentroids]

/-- Shape invariant carried through the k-means iteration loop. -/
lemma kMeansLoop_inv (vectors : List Vec) (k : ℕ) (hk : 0 < k) :
    ∀ (fuel : ℕ) (c : List Vec) (a : List ℕ), c.length = k →
      a.length = vectors.length → (∀ x ∈ a, x < k) →
      (kMeansLoop vectors fuel c a).1.length = k ∧
        (kMeansLoop vectors fuel c a).2.length = vectors.length ∧
        ∀ x ∈ (kMeansLoop vectors fuel c a).2, x < k := by
  intro fuel
  induction fuel with
  | zero => intro c a hc ha hak; exact ⟨hc, ha, hak⟩
  | succ fuel ih =>
    intro c a hc ha hak
    have hcne : c ≠ [] := by
      intro h
      rw [h] at hc
      simp at hc
      omega
    rw [kMeansLoop]
    by_cases heq : assignStep vectors c = a
    · simp only [heq, if_pos rfl]
      exact ⟨hc, ha, hak⟩
    · simp only [if_neg heq]
      refine ih _ _ ?_ ?_ ?_
      · rw [length_updateCentroids, hc]
      · rw [length_assignStep]
      · intro x hx
        have := mem_assignStep_lt vectors c hcne x hx
        omega

lemma kMeans_ok_eq (vectors : List Vec) (k maxIterations : ℕ)
    (randIdx : ℕ → ℕ) (randThresh : ℕ → ℚ)
    (h1 : vectors ≠ []) (h2 : 0 < k) (h3 : k ≤ vectors.length) :
    kMeans vectors k maxIterations randIdx randThresh
      = .ok (kMeansLoop vectors maxIterations
          (kMeansPlusPlusInit vectors k randIdx randThresh)
          (List.replicate vectors.length 0)) := by
  have hlen : vectors.length ≠ 0 := by
    simp [List.length_eq_zero]
    exact h1
  unfold kMeans
  rw [if_neg hlen, if_neg (by omega), if_neg (by omega)]

/-- `kMeans` on valid input succeeds with `k` centroids, one assignment per
point, every assignment below `k`. -/
lemma kMeans_shape (vectors : List Vec) (k maxIterations : ℕ)
    (randIdx : ℕ → ℕ) (randThresh : ℕ → ℚ)
    (h1 : vectors ≠ []) (h2 : 0 < k) (h3 : k ≤ vectors.length) :
    ∃ c a, kMeans vectors k maxIterations randIdx randThresh = .ok (c, a) ∧
      c.length = k ∧ a.length = vectors.length ∧ ∀ x ∈ a, x < k := by
  rw [kMeans_ok_eq vectors k maxIterations randIdx randThresh h1 h2 h3]
  refine ⟨_, _, rfl, ?_⟩
  exact kMeansLoop_inv vectors k h2 maxIterations _ _
    (length_kMeansPlusPlusInit vectors k h2 randIdx randThresh)
    (by simp) (by intro x hx; simp at hx; omega)

/-- Shape facts about the shared result assembly, given the shape facts of
the raw clustering output. -/
lemma buildClusterResult_spec (embeddings : List (String × Vec))
    (centroids : List Vec) (assignments : List ℕ) (k : ℕ)
    (hc : centroids.length = k)
    (ha : assignments.length = embeddings.length)
    (hak : ∀ x ∈ assignments, x < k) :
    (buildClusterResult embeddings centroids assignments).clusters.length = k ∧
      (buildClusterResult embeddings centroids assignments).clusters.map
          (fun c => c.id) = List.range k ∧
      (buildClusterResult embeddings centroids assignments).assignments.length
          = embeddings.length ∧
      (∀ a ∈ (buildClusterResult embeddings centroids assignments).assignments,
        a.clusterId < k) ∧
      (∀ cl ∈ (buildClusterResult embeddings centroids assignments).clusters,
        cl.size = ((buildClusterResult embeddings centroids assignments).assignments.filter
          (fun a => a.clusterId = cl.id)).length) := by
  refine ⟨?_, ?_, ?_, ?_, ?_⟩
  · simp [buildClusterResult, hc]
  · rw [← hc]
    simp only [buildClusterResult, List.map_map]
    have : ((fun c : Cluster => c.id) ∘ fun p : ℕ × Vec =>
        ({ id := p.1, centroid := p.2,
           size := (assignments.filter (fun a => a = p.1)).length } : Cluster))
        = Prod.fst := rfl
    rw [this, List.enum_map_fst]
  · simp [buildClusterResult, List.length_zip, ha]
  · intro a hmem
    simp only [buildClusterResult, List.mem_map] at hmem
    obtain ⟨p, hp, rfl⟩ := hmem
    have := List.of_mem_zip hp
    exact hak p.2 this.2
  · intro cl hmem
    simp only [buildClusterResult, List.mem_map] at hmem
    obtain ⟨p, _, rfl⟩ := hmem
    simp only [buildClusterResult]
    rw [← List.countP_eq_length_filter, ← List.countP_eq_length_filter,
      List.countP_map]
    have hsnd : (embeddings.zip assignments).map Prod.snd = assignments :=
      List.map_snd_zip _ _ (le_of_eq ha)
    conv_lhs => rw [← hsnd, List.countP_map]
    rfl

/-- Claim C1.  For every non-empty embedding list and every `k` with
`0 < k ≤ points.length`, the hard-clustering entry point `cluster` succeeds
and returns exactly `k` clusters — the cluster-id space `0,…,k-1` is kept
intact (empty clusters are retained, their `size` simply counts zero
matching assignments) — and exactly one assignment per input point, every
assignment's cluster id lying in `[0, k)`.  Quantified over the seeding
randomness oracles. -/
theorem claim_C1_cluster_shape
    (embeddings : List (String × Vec)) (k maxIterations : ℕ)
    (randIdx : ℕ → ℕ) (randThresh : ℕ → ℚ)
    (hne : embeddings ≠ []) (hk : 0 < k) (hkle : k ≤ embeddings.length) :
    ∃ res, cluster embeddings k maxIterations randIdx randThresh = .ok res ∧
      res.clusters.length = k ∧
      res.clusters.map (fun c => c.id) = List.range k ∧
      res.assignments.length = embeddings.length ∧
      (∀ a ∈ res.assignments, a.clusterId < k) ∧
      (∀ cl ∈ res.clusters,
        cl.size = (res.assignments.filter (fun a => a.clusterId = cl.id)).length) := by
  have hvne : embeddings.map (fun e => e.2) ≠ [] := by
    simpa [List.map_eq_nil_iff] using hne
  have hvlen : (embeddings.map (fun e => e.2)).length = embeddings.length := by simp
  obtain ⟨c, a, hok, hc, ha, hak⟩ := kMeans_shape (embeddings.map (fun e => e.2))
    k maxIterations randIdx randThresh hvne hk (by omega)
  refine ⟨buildClusterResult embeddings c a, ?_, ?_⟩
  · unfold cluster
    rw [hok]
  · exact buildClusterResult_spec embeddings c a k hc (by omega) hak

/-- Witness for C1 at a concrete input: two 1-dimensional points, `k = 2`. -/
theorem claim_C1_cluster_shape_witness :
    ∃ res, cluster [("a", [0]), ("b", [1])] 2 100 (fun _ => 0) (fun _ => 0) = .ok res ∧
      res.clusters.length = 2 ∧
      res.clusters.map (fun c => c.id) = List.range 2 ∧
      res.assignments.length = 2 ∧
      (∀ a ∈ res.assignments, a.clusterId < 2) ∧
      (∀ cl ∈ res.clusters,
        cl.size = (res.assignments.filter (fun a => a.clusterId = cl.id)).length) :=
  claim_C1_cluster_shape [("a", [0]), ("b", [1])] 2 100 (fun _ => 0) (fun _ => 0)
    (by decide) (by decide) (by decide)

lemma getD_map_of_lt {α β : Type} (f : α → β) (l : List α) {j : ℕ}
    (h : j < l.length) (d : β) (d' : α) :
    (l.map f).getD j d = f (l.getD j d') := by
  simp [List.getD, List.getElem?_map, List.getElem?_eq_getElem h]

/-- The component-wise accumulation inside `meanVector`: after folding a
list of vectors onto an accumulator of length `dims`, component `j` holds
the accumulator's component plus the sum of the vectors' components. -/
lemma meanFold_spec (dims : ℕ) (l : List Vec) :
    ∀ m : Vec, m.length = dims →
      (l.foldl (fun (m : Vec) v =>
          (List.range dims).map (fun i => m.getD i 0 + v.getD i 0)) m).length = dims ∧
      ∀ j, j < dims →
        (l.foldl (fun (m : Vec) v =>
            (List.range dims).map (fun i => m.getD i 0 + v.getD i 0)) m).getD j 0
          = m.getD j 0 + (l.map (fun v => v.getD j 0)).sum := by
  induction l with
  | nil =>
    intro m hm
    exact ⟨hm, by intro j _; simp⟩
  | cons v l ih =>
    intro m hm
    have hstep : ((List.range dims).map
        (fun i => m.getD i 0 + v.getD i 0)).length = dims := by simp
    obtain ⟨hlen, hsum⟩ := ih _ hstep
    refine ⟨by simpa using hlen, ?_⟩
    intro j hj
    rw [List.foldl_cons, hsum j hj, getD_map_range _ 0 hj]
    simp only [List.map_cons, List.sum_cons]
    ring

/-- `meanVector` computes the arithmetic mean: component `j` is the sum of
the members' components `j` divided by the member count. -/
lemma meanVector_spec (v0 : Vec) (rest : List Vec) (j : ℕ) (hj : j < v0.length) :
    (meanVector (v0 :: rest)).getD j 0
      = (((v0 :: rest).map (fun v => v.getD j 0)).sum) / (((v0 :: rest).length : ℕ) : ℚ) := by
  unfold meanVector
  obtain ⟨hlen, hsum⟩ := meanFold_spec v0.length (v0 :: rest)
    (List.replicate v0.length (0 : ℚ)) (by simp)
  rw [getD_map_of_lt _ _ (by rw [hlen]; exact hj) 0 0, hsum j hj]
  simp

lemma updateCentroids_getD (vectors : List Vec) (assignments : List ℕ)
    (centroids : List Vec) (i : ℕ) (hi : i < centroids.length) :
    (updateCentroids vectors assignments centroids).getD i []
      = if 0 < (membersOf vectors assignments i).length
        then meanVector (membersOf vectors assignments i)
        else centroids.getD i [] := by
  unfold updateCentroids
  rw [getD_map_range _ [] hi]

lemma kMeansLoop_zero (vectors : List Vec) (c : List Vec) (a : List ℕ) :
    kMeansLoop vectors 0 c a = (c, a) := rfl

lemma kMeansLoop_succ (vectors : List Vec) (fuel : ℕ) (c : List Vec) (a : List ℕ) :
    kMeansLoop vectors (fuel + 1) c a
      = if assignStep vectors c = a then (c, a)
        else kMeansLoop vectors fuel
          (updateCentroids vectors (assignStep vectors c) c)
          (assignStep vectors c) := rfl

/-- Claim C2.  The k-means iteration structure, phrased against spec-level
predicates: (i) each point is assigned the first index of a centroid at
minimal Euclidean distance (squared distances compare identically);
(ii) a cluster with members gets the arithmetic mean of its members as its
new centroid and a memberless cluster keeps its previous centroid
unchanged; (iii) `meanVector` really is the arithmetic mean; (iv) the loop
stops exactly when the new assignment vector equals the previous one (exact
list equality), otherwise recurses with updated centroids, and stops
unconditionally when the iteration budget is exhausted. -/
theorem claim_C2_kmeans_iteration :
    (∀ (v : Vec) (c : List Vec), c ≠ [] →
      nearestIdx v c < c.length ∧
        (∀ j, j < c.length →
          euclideanDistSq v (c.getD (nearestIdx v c) [])
            ≤ euclideanDistSq v (c.getD j [])) ∧
        (∀ j, j < nearestIdx v c →
          euclideanDistSq v (c.getD (nearestIdx v c) [])
            < euclideanDistSq v (c.getD j []))) ∧
    (∀ (vectors : List Vec) (assignments : List ℕ) (centroids : List Vec) (i : ℕ),
      i < centroids.length →
        (membersOf vectors assignments i ≠ [] →
          (updateCentroids vectors assignments centroids).getD i []
            = meanVector (membersOf vectors assignments i)) ∧
        (membersOf vectors assignments i = [] →
          (updateCentroids vectors assignments centroids).getD i []
            = centroids.getD i [])) ∧
    (∀ (v0 : Vec) (rest : List Vec) (j : ℕ), j < v0.length →
      (meanVector (v0 :: rest)).getD j 0
        = (((v0 :: rest).map (fun v => v.getD j 0)).sum) / (((v0 :: rest).length : ℕ) : ℚ)) ∧
    (∀ (vectors c : List Vec) (a : List ℕ) (fuel : ℕ),
      kMeansLoop vectors (fuel + 1) c a
        = if assignStep vectors c = a then (c, a)
          else kMeansLoop vectors fuel
            (updateCentroids vectors (assignStep vectors c) c)
            (assignStep vectors c)) ∧
    (∀ (vectors c : List Vec) (a : List ℕ), kMeansLoop vectors 0 c a = (c, a)) := by
  refine ⟨nearestIdx_spec, ?_, ?_, ?_, ?_⟩
  · intro vectors assignments centroids i hi
    rw [updateCentroids_getD vectors assignments centroids i hi]
    constructor
    · intro hne
      rw [if_pos (List.length_pos.mpr hne)]
    · intro hnil
      rw [hnil]
      simp
  · intro v0 rest j hj
    exact meanVector_spec v0 rest j hj
  · intro vectors c a fuel
    exact kMeansLoop_succ vectors fuel c a
  · intro vectors c a
    exact kMeansLoop_zero vectors c a

/-- Witness for C2 on concrete data: nearest-index bound for a point and
two centroids; a memberless cluster keeping its centroid; the mean of two
one-dimensional vectors; both loop-termination equations. -/
theorem claim_C2_kmeans_iteration_witness :
    nearestIdx [5] [[0], [5]] < 2 ∧
    (updateCentroids [[0], [2]] [0, 0] [[9], [9]]).getD 1 [] = [9] ∧
    (meanVector [[1], [3]]).getD 0 0
      = ((([[1], [3]] : List Vec).map (fun v => v.getD 0 0)).sum)
          / ((([[1], [3]] : List Vec).length : ℕ) : ℚ) ∧
    kMeansLoop [[0]] 1 [[5]] [0]
      = (if assignStep [[0]] [[5]] = [0] then (([[5]] : List Vec), ([0] : List ℕ))
         else kMeansLoop [[0]] 0
           (updateCentroids [[0]] (assignStep [[0]] [[5]]) [[5]])
           (assignStep [[0]] [[5]])) ∧
    kMeansLoop [[7]] 0 [[1]] [0] = ([[1]], [0]) := by
  refine ⟨(claim_C2_kmeans_iteration.1 [5] [[0], [5]] (by decide)).1, ?_, ?_, ?_, ?_⟩
  · exact (claim_C2_kmeans_iteration.2.1 [[0], [2]] [0, 0] [[9], [9]] 1 (by decide)).2
      (by decide)
  · exact claim_C2_kmeans_iteration.2.2.1 [1] [[3]] 0 (by decide)
  · exact claim_C2_kmeans_iteration.2.2.2.1 [[0]] [[5]] [0] 0
  · exact claim_C2_kmeans_iteration.2.2.2.2 [[7]] [[1]] [0]

lemma miniBatchKMeans_ok_eq (vectors : List Vec) (k batchSize maxIterations : ℕ)
    (randIdx : ℕ → ℕ) (randThresh : ℕ → ℚ) (batches : ℕ → List ℕ)
    (h1 : vectors ≠ []) (h2 : 0 < k) (h3 : k ≤ vectors.length) :
    miniBatchKMeans vectors k batchSize maxIterations randIdx randThresh batches
      = .ok (miniBatchLoop vectors batches 0 maxIterations
              (kMeansPlusPlusInit vectors k randIdx randThresh)
              (List.replicate k 0)
              (kMeansPlusPlusInit vectors k randIdx randThresh),
             vectors.map (fun v => nearestIdx v
               (miniBatchLoop vectors batches 0 maxIterations
                 (kMeansPlusPlusInit vectors k randIdx randThresh)
                 (List.replicate k 0)
                 (kMeansPlusPlusInit vectors k randIdx randThresh)))) := by
  have hlen : vectors.length ≠ 0 := by
    simp [List.length_eq_zero]
    exact h1
  unfold miniBatchKMeans
  rw [if_neg hlen, if_neg (by omega), if_neg (by omega)]

/-- Claim C8.  Both hard-clustering entry points reject an empty point list,
`k = 0` (the source's `k <= 0`; `k` is a count) and `k` exceeding the point
count, with the source's error messages and in the source's checking order,
before any clustering work happens. -/
theorem claim_C8_invalid_input
    (embeddings : List (String × Vec)) (k batchSize maxIterations : ℕ)
    (randIdx : ℕ → ℕ) (randThresh : ℕ → ℚ) (batches : ℕ → List ℕ) :
    (embeddings = [] →
      cluster embeddings k maxIterations randIdx randThresh
          = .error "Cannot cluster empty vector array" ∧
      clusterMiniBatch embeddings k batchSize maxIterations randIdx randThresh batches
          = .error "Cannot cluster empty vector array") ∧
    (embeddings ≠ [] → k = 0 →
      cluster embeddings k maxIterations randIdx randThresh
          = .error "k must be positive" ∧
      clusterMiniBatch embeddings k batchSize maxIterations randIdx randThresh batches
          = .error "k must be positive") ∧
    (embeddings ≠ [] → embeddings.length < k →
      cluster embeddings k maxIterations randIdx randThresh
          = .error "k cannot exceed number of vectors" ∧
      clusterMiniBatch embeddings k batchSize maxIterations randIdx randThresh batches
          = .error "k cannot exceed number of vectors") := by
  refine ⟨?_, ?_, ?_⟩
  · intro h
    subst h
    constructor
    · unfold cluster kMeans
      rfl
    · unfold clusterMiniBatch miniBatchKMeans
      rfl
  · intro hne hk
    subst hk
    have hlen : (embeddings.map (fun e => e.2)).length ≠ 0 := by
      simpa [List.length_eq_zero, List.map_eq_nil_iff] using hne
    constructor
    · unfold cluster kMeans
      rw [if_neg hlen, if_pos rfl]
    · unfold clusterMiniBatch miniBatchKMeans
      rw [if_neg hlen, if_pos rfl]
  · intro hne hlt
    have hlen : (embeddings.map (fun e => e.2)).length ≠ 0 := by
      simpa [List.length_eq_zero, List.map_eq_nil_iff] using hne
    have hk0 : k ≠ 0 := by
      have : 0 < embeddings.length := List.length_pos.mpr hne
      omega
    have hlt' : (embeddings.map (fun e => e.2)).length < k := by simpa using hlt
    constructor
    · unfold cluster kMeans
      rw [if_neg hlen, if_neg hk0, if_pos hlt']
    · unfold clusterMiniBatch miniBatchKMeans
      rw [if_neg hlen, if_neg hk0, if_pos hlt']

/-- Witness for C8: each of the three rejection conditions at a concrete
input. -/
theorem claim_C8_invalid_input_witness :
    cluster ([] : List (String × Vec)) 1 100 (fun _ => 0) (fun _ => 0)
        = .error "Cannot cluster empty vector array" ∧
    cluster [("a", [1])] 0 100 (fun _ => 0) (fun _ => 0)
        = .error "k must be positive" ∧
    clusterMiniBatch [("a", [1])] 2 100 100 (fun _ => 0) (fun _ => 0) (fun _ => [])
        = .error "k cannot exceed number of vectors" := by
  refine ⟨?_, ?_, ?_⟩
  · exact ((claim_C8_invalid_input [] 1 100 100 (fun _ => 0) (fun _ => 0)
      (fun _ => [])).1 rfl).1
  · exact ((claim_C8_invalid_input [("a", [1])] 0 100 100 (fun _ => 0) (fun _ => 0)
      (fun _ => [])).2.1 (by decide) rfl).1
  · exact ((claim_C8_invalid_input [("a", [1])] 2 100 100 (fun _ => 0) (fun _ => 0)
      (fun _ => [])).2.2 (by decide) (by decide)).2

/-- Counterexample to C3.  The claim asserts that *every* clustering entry
point rejects mismatched embedding dimensionalities.  It fails for
`cluster`: on the spec's own scenario input (`[1,2,3]` against `[1,2]`) the
`kMeans` validation checks only emptiness and the `k` bounds, so the call
*succeeds* (in JavaScript the mismatched positions contribute `NaN`s to the
arithmetic; no exception is raised on any path). -/
theorem claim_C3_counterexample :
    (cluster [("a", [1, 2, 3]), ("b", [1, 2])] 1 100
      (fun _ => 0) (fun _ => 0)).isOk = true := by decide

/-- Claim C3, amended.  Of the three clustering entry points only
`clusterSoft` validates dimensionality (rejecting, before any clustering
work, any input of at least two embeddings whose lengths are not all equal
to the first one's); `cluster` and `clusterMiniBatch` perform no
dimensionality check at all and return a result for every input passing
the emptiness/`k` validation. -/
theorem claim_C3_dimension_check
    (embeddings : List (String × Vec)) (k batchSize maxClusters maxIterations : ℕ)
    (minProbability : ℚ) (useBIC : Bool) (logA sqrtA expA : ℚ → ℚ)
    (randIdx : ℕ → ℕ) (randThresh : ℕ → ℚ) (batches : ℕ → List ℕ) :
    (2 ≤ embeddings.length →
      (embeddings.map (fun e => e.2)).any
          (fun v => v.length ≠ ((embeddings.map (fun e => e.2)).getD 0 []).length) = true →
      clusterSoft embeddings maxClusters minProbability useBIC maxIterations
          logA sqrtA expA randIdx randThresh = .error "Dimension mismatch") ∧
    (embeddings ≠ [] → 0 < k → k ≤ embeddings.length →
      (cluster embeddings k maxIterations randIdx randThresh).isOk = true ∧
      (clusterMiniBatch embeddings k batchSize maxIterations
          randIdx randThresh batches).isOk = true) := by
  constructor
  · intro h2 hany
    unfold clusterSoft
    rw [if_neg (by omega), if_neg (by omega), if_pos hany]
  · intro hne hk hkle
    have hvne : embeddings.map (fun e => e.2) ≠ [] := by
      simpa [List.map_eq_nil_iff] using hne
    constructor
    · obtain ⟨c, a, hok, _, _, _⟩ := kMeans_shape (embeddings.map (fun e => e.2))
        k maxIterations randIdx randThresh hvne hk (by simpa using hkle)
      unfold cluster
      rw [hok]
      rfl
    · rw [clusterMiniBatch,
        miniBatchKMeans_ok_eq (embeddings.map (fun e => e.2)) k batchSize
          maxIterations randIdx randThresh batches hvne hk (by simpa using hkle)]
      rfl

/-- Witness for C3 (amended): `clusterSoft` rejects the spec's
mismatched-dimension scenario, while `cluster` and `clusterMiniBatch`
accept the same vectors. -/
theorem claim_C3_dimension_check_witness :
    clusterSoft [("a", [1, 2, 3]), ("b", [1, 2])] 10 (1 / 100) true 100
        (fun x => x) (fun x => x) (fun x => x) (fun _ => 0) (fun _ => 0)
        = .error "Dimension mismatch" ∧
    (cluster [("a", [1, 2, 3]), ("b", [1, 2])] 2 100
        (fun _ => 0) (fun _ => 0)).isOk = true ∧
    (clusterMiniBatch [("a", [1, 2, 3]), ("b", [1, 2])] 2 100 100
        (fun _ => 0) (fun _ => 0) (fun _ => [0, 1])).isOk = true := by
  refine ⟨?_, ?_, ?_⟩
  · exact (claim_C3_dimension_check [("a", [1, 2, 3]), ("b", [1, 2])] 2 100 10 100
      (1 / 100) true (fun x => x) (fun x => x) (fun x => x)
      (fun _ => 0) (fun _ => 0) (fun _ => [0, 1])).1 (by decide) (by decide)
  · exact ((claim_C3_dimension_check [("a", [1, 2, 3]), ("b", [1, 2])] 2 100 10 100
      (1 / 100) true (fun x => x) (fun x => x) (fun x => x)
      (fun _ => 0) (fun _ => 0) (fun _ => [0, 1])).2 (by decide) (by decide)
      (by decide)).1
  · exact ((claim_C3_dimension_check [("a", [1, 2, 3]), ("b", [1, 2])] 2 100 10 100
      (1 / 100) true (fun x => x) (fun x => x) (fun x => x)
      (fun _ => 0) (fun _ => 0) (fun _ => [0, 1])).2 (by decide) (by decide)
      (by decide)).2

lemma foldl_miniBatchStep_length (vectors : List Vec) :
    ∀ (l : List (ℕ × ℕ)) (st : List Vec × List ℕ),
      (l.foldl (miniBatchStep vectors) st).1.length = st.1.length := by
  intro l
  induction l with
  | nil => intro st; rfl
  | cons p l ih =>
    intro st
    rw [List.foldl_cons, ih]
    simp [miniBatchStep]

lemma miniBatchUpdate_length (vectors centroids : List Vec) (counts : List ℕ)
    (batch : List ℕ) :
    (miniBatchUpdate vectors centroids counts batch).1.length = centroids.length := by
  unfold miniBatchUpdate
  rw [foldl_miniBatchStep_length]

lemma miniBatchLoop_length (vectors : List Vec) (batches : ℕ → List ℕ) :
    ∀ (fuel iter : ℕ) (centroids : List Vec) (counts : List ℕ) (prev : List Vec),
      (miniBatchLoop vectors batches iter fuel centroids counts prev).length
        = centroids.length := by
  intro fuel
  induction fuel with
  | zero => intro iter c counts prev; rfl
  | succ fuel ih =>
    intro iter c counts prev
    rw [miniBatchLoop]
    by_cases hiter : iter % 10 = 0 ∧ 0 < iter
    · rw [if_pos hiter]
      by_cases hconv : centroidDeltaSq prev
          (miniBatchUpdate vectors c counts (batches iter)).1 < 1 / 10 ^ 8
      · rw [if_pos hconv, miniBatchUpdate_length]
      · rw [if_neg hconv, ih, miniBatchUpdate_length]
    · rw [if_neg hiter, ih, miniBatchUpdate_length]

lemma getD_zip {α β : Type} :
    ∀ (l1 : List α) (l2 : List β) (i : ℕ) (d1 : α) (d2 : β), i < l1.length →
      i < l2.length → (l1.zip l2).getD i (d1, d2) = (l1.getD i d1, l2.getD i d2)
  | [], _, _, _, _, h1, _ => by simp at h1
  | _ :: _, [], _, _, _, _, h2 => by simp at h2
  | a :: l1, b :: l2, 0, d1, d2, _, _ => by simp [List.getD]
  | a :: l1, b :: l2, i + 1, d1, d2, h1, h2 => by
    simp only [List.zip_cons_cons, List.getD_cons_succ]
    exact getD_zip l1 l2 i d1 d2 (by simpa using h1) (by simpa using h2)

/-- Claim C7.  After the mini-batch iteration loop, `clusterMiniBatch` runs
one full pass over *all* input points: the returned assignment list has
exactly one entry per input point, in input order and with the input ids,
and each entry's cluster id is the index of the nearest final centroid
(first minimizer, at minimal squared distance over all `k` final
centroids). -/
theorem claim_C7_minibatch_full_pass
    (embeddings : List (String × Vec)) (k batchSize maxIterations : ℕ)
    (randIdx : ℕ → ℕ) (randThresh : ℕ → ℚ) (batches : ℕ → List ℕ)
    (hne : embeddings ≠ []) (hk : 0 < k) (hkle : k ≤ embeddings.length) :
    ∃ res, clusterMiniBatch embeddings k batchSize maxIterations
        randIdx randThresh batches = .ok res ∧
      res.assignments.length = embeddings.length ∧
      res.assignments.map (fun a => a.id) = embeddings.map (fun e => e.1) ∧
      res.clusters.length = k ∧
      (∀ i, i < embeddings.length →
        (res.assignments.getD i ⟨"", 0, 0⟩).clusterId
            = nearestIdx (embeddings.getD i ("", [])).2
                (res.clusters.map (fun c => c.centroid)) ∧
        (res.assignments.getD i ⟨"", 0, 0⟩).clusterId < k ∧
        (∀ j, j < k →
          euclideanDistSq (embeddings.getD i ("", [])).2
              ((res.clusters.map (fun c => c.centroid)).getD
                (res.assignments.getD i ⟨"", 0, 0⟩).clusterId [])
            ≤ euclideanDistSq (embeddings.getD i ("", [])).2
                ((res.clusters.map (fun c => c.centroid)).getD j []))) := by
  have hvne : embeddings.map (fun e => e.2) ≠ [] := by
    simpa [List.map_eq_nil_iff] using hne
  have hvlen : (embeddings.map (fun e => e.2)).length = embeddings.length := by simp
  set vectors := embeddings.map (fun e => e.2) with hvectors
  set F := miniBatchLoop vectors batches 0 maxIterations
    (kMeansPlusPlusInit vectors k randIdx randThresh)
    (List.replicate k 0)
    (kMeansPlusPlusInit vectors k randIdx randThresh) with hF
  have hFlen : F.length = k := by
    rw [hF, miniBatchLoop_length, length_kMeansPlusPlusInit vectors k hk]
  have hFne : F ≠ [] := by
    intro h
    rw [h] at hFlen
    simp at hFlen
    omega
  have hok := miniBatchKMeans_ok_eq vectors k batchSize maxIterations
    randIdx randThresh batches hvne hk (by omega)
  set asg := vectors.map (fun v => nearestIdx v F) with hasg
  have halen : asg.length = embeddings.length := by simp [hasg, hvectors]
  refine ⟨buildClusterResult embeddings F asg, ?_, ?_, ?_, ?_, ?_⟩
  · unfold clusterMiniBatch
    rw [← hvectors, hok]
  · simp [buildClusterResult, List.length_zip, halen]
  · -- ids in input order
    have hzip : (embeddings.zip asg).map Prod.fst = embeddings :=
      List.map_fst_zip _ _ (le_of_eq halen.symm)
    simp only [buildClusterResult, List.map_map]
    calc ((embeddings.zip asg).map
          ((fun a : ClusterAssignment => a.id) ∘ fun p =>
            ({ id := p.1.1, clusterId := p.2,
               distanceSq := euclideanDistSq p.1.2 (F.getD p.2 []) } : ClusterAssignment)))
        = ((embeddings.zip asg).map (Prod.fst ∘ Prod.fst)) := rfl
      _ = ((embeddings.zip asg).map Prod.fst).map Prod.fst := by rw [List.map_map]
      _ = embeddings.map (fun e => e.1) := by rw [hzip]
  · simp [buildClusterResult, hFlen]
  · intro i hi
    have hcentroids : (buildClusterResult embeddings F asg).clusters.map
        (fun c => c.centroid) = F := by
      simp only [buildClusterResult, List.map_map]
      have : ((fun c : Cluster => c.centroid) ∘ fun p : ℕ × Vec =>
          ({ id := p.1, centroid := p.2,
             size := (asg.filter (fun a => a = p.1)).length } : Cluster)) = Prod.snd := rfl
      rw [this, List.enum_map_snd]
    have hget : (buildClusterResult embeddings F asg).assignments.getD i ⟨"", 0, 0⟩
        = { id := (embeddings.getD i ("", [])).1
            clusterId := asg.getD i 0
            distanceSq := euclideanDistSq (embeddings.getD i ("", [])).2
              (F.getD (asg.getD i 0) []) } := by
      simp only [buildClusterResult]
      rw [getD_map_of_lt _ _ (by rw [List.length_zip]; omega) _ (("", []), 0),
        getD_zip embeddings asg i ("", []) 0 hi (by omega)]
    have hgasg : asg.getD i 0 = nearestIdx (embeddings.getD i ("", [])).2 F := by
      rw [hasg]
      rw [getD_map_of_lt (fun v => nearestIdx v F) vectors
        (by rw [hvectors]; simpa using hi) 0 []]
      have : vectors.getD i [] = (embeddings.getD i ("", [])).2 := by
        rw [hvectors]
        exact getD_map_of_lt (fun e => e.2) embeddings hi [] ("", [])
      rw [this]
    obtain ⟨hlt, hmin, _⟩ := nearestIdx_spec (embeddings.getD i ("", [])).2 F hFne
    refine ⟨?_, ?_, ?_⟩
    · rw [hget, hcentroids]
      exact hgasg
    · rw [hget]
      simp only
      rw [hgasg]
      omega
    · intro j hj
      rw [hget, hcentroids]
      simp only
      rw [hgasg]
      exact hmin j (by omega)

/-- Witness for C7: two 1-dimensional points, `k = 1`, a fixed sampling
oracle. -/
theorem claim_C7_minibatch_full_pass_witness :
    ∃ res, clusterMiniBatch [("a", [0]), ("b", [3])] 1 1 2
        (fun _ => 0) (fun _ => 0) (fun _ => [0]) = .ok res ∧
      res.assignments.length = 2 ∧
      res.assignments.map (fun a => a.id)
          = ([("a", [0]), ("b", [3])] : List (String × Vec)).map (fun e => e.1) ∧
      res.clusters.length = 1 ∧
      (∀ i, i < 2 →
        (res.assignments.getD i ⟨"", 0, 0⟩).clusterId
            = nearestIdx (([("a", [0]), ("b", [3])] : List (String × Vec)).getD i ("", [])).2
                (res.clusters.map (fun c => c.centroid)) ∧
        (res.assignments.getD i ⟨"", 0, 0⟩).clusterId < 1 ∧
        (∀ j, j < 1 →
          euclideanDistSq (([("a", [0]), ("b", [3])] : List (String × Vec)).getD i ("", [])).2
              ((res.clusters.map (fun c => c.centroid)).getD
                (res.assignments.getD i ⟨"", 0, 0⟩).clusterId [])
            ≤ euclideanDistSq (([("a", [0]), ("b", [3])] : List (String × Vec)).getD i ("", [])).2
                ((res.clusters.map (fun c => c.centroid)).getD j []))) := by
  have h := claim_C7_minibatch_full_pass [("a", [0]), ("b", [3])] 1 1 2
    (fun _ => 0) (fun _ => 0) (fun _ => [0]) (by decide) (by decide) (by decide)
  simpa using h

/-- Full invariant of the BIC selection loop after scanning
`k = 1, …, n`. -/
lemma bicScan_inv (score : ℕ → Option ℚ) (n : ℕ) :
    ((List.range' 1 n).foldl (bicScanStep score) ([], 1, none)).1
        = (List.range' 1 n).filterMap (fun k => (score k).map (fun b => (k, b))) ∧
      1 ≤ ((List.range' 1 n).foldl (bicScanStep score) ([], 1, none)).2.1 ∧
      ((List.range' 1 n).foldl (bicScanStep score) ([], 1, none)).2.1 ≤ max 1 n ∧
      (∀ p ∈ ((List.range' 1 n).foldl (bicScanStep score) ([], 1, none)).1, ∀ b,
        ((List.range' 1 n).foldl (bicScanStep score) ([], 1, none)).2.2 = some b →
          b ≤ p.2 ∧ (p.2 = b →
            ((List.range' 1 n).foldl (bicScanStep score) ([], 1, none)).2.1 ≤ p.1)) ∧
      (((List.range' 1 n).foldl (bicScanStep score) ([], 1, none)).2.2 = none →
        ((List.range' 1 n).foldl (bicScanStep score) ([], 1, none)).1 = [] ∧
        ((List.range' 1 n).foldl (bicScanStep score) ([], 1, none)).2.1 = 1) ∧
      (∀ b, ((List.range' 1 n).foldl (bicScanStep score) ([], 1, none)).2.2 = some b →
        (((List.range' 1 n).foldl (bicScanStep score) ([], 1, none)).2.1, b)
          ∈ ((List.range' 1 n).foldl (bicScanStep score) ([], 1, none)).1) := by
  induction n with
  | zero =>
    refine ⟨rfl, le_refl 1, by simp, ?_, ?_, ?_⟩
    · intro p hp
      simp at hp
    · intro _
      exact ⟨rfl, rfl⟩
    · intro b hb
      simp at hb
  | succ n ih =>
    obtain ⟨hA, hB, hC, hD, hE, hF⟩ := ih
    rw [List.range'_1_concat, List.foldl_append, List.foldl_cons, List.foldl_nil,
      List.filterMap_append]
    set st := (List.range' 1 n).foldl (bicScanStep score) ([], 1, none) with hst
    cases hsc : score (1 + n) with
    | none =>
      have hone : bicScanStep score st (1 + n) = st := by
        unfold bicScanStep
        rw [hsc]
      rw [hone]
      refine ⟨?_, hB, by omega, hD, hE, hF⟩
      rw [hA]
      simp [hsc]
    | some bic =>
      have hfm : (List.range' 1 n).filterMap (fun k => (score k).map (fun b => (k, b)))
          ++ [(1 + n)].filterMap (fun k => (score k).map (fun b => (k, b)))
          = st.1 ++ [(1 + n, bic)] := by
        rw [← hA]
        simp [hsc]
      cases hbb : st.2.2 with
      | none =>
        obtain ⟨hnil, hone⟩ := hE hbb
        have hstep : bicScanStep score st (1 + n) = (st.1 ++ [(1 + n, bic)], 1 + n, some bic) := by
          unfold bicScanStep
          rw [hsc]
          simp only [hbb]
        rw [hstep]
        refine ⟨by rw [hfm], by show 1 ≤ 1 + n; omega,
          by show 1 + n ≤ max 1 (n + 1); omega, ?_, by simp, ?_⟩
        · intro p hp b hb
          replace hb : some bic = some b := hb
          cases hb
          rw [hnil] at hp
          simp only [List.nil_append, List.mem_singleton] at hp
          subst hp
          exact ⟨le_refl _, fun _ => le_refl _⟩
        · intro b hb
          replace hb : some bic = some b := hb
          cases hb
          simp
      | some m =>
        by_cases hcmp : bic < m
        · have hstep : bicScanStep score st (1 + n)
              = (st.1 ++ [(1 + n, bic)], 1 + n, some bic) := by
            unfold bicScanStep
            rw [hsc]
            simp only [hbb]
            rw [if_pos hcmp]
          rw [hstep]
          refine ⟨by rw [hfm], by show 1 ≤ 1 + n; omega,
            by show 1 + n ≤ max 1 (n + 1); omega, ?_, by simp, ?_⟩
          · intro p hp b hb
            replace hb : some bic = some b := hb
            cases hb
            rw [List.mem_append] at hp
            rcases hp with hp | hp
            · obtain ⟨hble, _⟩ := hD p hp m hbb
              constructor
              · exact le_of_lt (lt_of_lt_of_le hcmp hble)
              · intro hpe
                exfalso
                have hmle : m ≤ p.2 := hble
                rw [hpe] at hmle
                exact absurd hcmp (not_lt.mpr hmle)
            · simp only [List.mem_singleton] at hp
              subst hp
              exact ⟨le_refl _, fun _ => le_refl _⟩
          · intro b hb
            replace hb : some bic = some b := hb
            cases hb
            simp
        · have hstep : bicScanStep score st (1 + n)
              = (st.1 ++ [(1 + n, bic)], st.2.1, some m) := by
            unfold bicScanStep
            rw [hsc]
            simp only [hbb]
            rw [if_neg hcmp]
          rw [hstep]
          refine ⟨by rw [hfm], hB, by show st.2.1 ≤ max 1 (n + 1); omega, ?_, by simp, ?_⟩
          · intro p hp b hb
            replace hb : some m = some b := hb
            cases hb
            rw [List.mem_append] at hp
            rcases hp with hp | hp
            · exact hD p hp m hbb
            · simp only [List.mem_singleton] at hp
              subst hp
              constructor
              · exact le_of_not_lt hcmp
              · intro _
                show st.2.1 ≤ 1 + n
                omega
          · intro b hb
            replace hb : some m = some b := hb
            cases hb
            have hmem := hF m hbb
            rw [List.mem_append]
            exact Or.inl hmem

/-- `softCluster` on valid input: explicit form of the centroids (length
`k`) and of the raw soft assignments. -/
lemma softCluster_ok (vectors : List Vec) (k maxIterations : ℕ) (temp : ℚ)
    (sqrtA expA : ℚ → ℚ) (randIdx : ℕ → ℕ) (randThresh : ℕ → ℚ)
    (hne : vectors ≠ []) (hk : 0 < k) (hkle : k ≤ vectors.length) :
    ∃ C, C.length = k ∧
      softCluster vectors k maxIterations temp sqrtA expA randIdx randThresh
        = .ok (C, (List.range vectors.length).flatMap (fun i =>
            (List.range k).map (fun j =>
              { vectorIdx := i, clusterId := j
                probability := (softmax expA
                  (C.map (fun c => sqrtA (euclideanDistSq (vectors.getD i []) c)))
                  temp).getD j 0 }))) := by
  obtain ⟨C, a, hok, hC, _, _⟩ := kMeans_shape vectors k maxIterations
    randIdx randThresh hne hk hkle
  refine ⟨C, hC, ?_⟩
  unfold softCluster
  rw [hok]

/-- The main (≥ 2 points, clean dimensions, positive `maxClusters`) path of
`clusterSoft`: it succeeds; the number of clusters is at least 1 and at
most the point count; when the BIC scan ran, it equals the scan's best `k`;
and the emitted assignments are the cutoff filter of `softCluster`'s raw
assignments, re-labelled with chunk ids. -/
lemma clusterSoft_main (embeddings : List (String × Vec)) (maxClusters : ℕ)
    (minProbability : ℚ) (useBIC : Bool) (maxIterations : ℕ)
    (logA sqrtA expA : ℚ → ℚ) (randIdx : ℕ → ℕ) (randThresh : ℕ → ℚ)
    (h2 : 2 ≤ embeddings.length) (hmc : 1 ≤ maxClusters)
    (hdims : (embeddings.map (fun e => e.2)).any
      (fun v => v.length ≠ ((embeddings.map (fun e => e.2)).getD 0 []).length) = false) :
    ∃ res C raws,
      clusterSoft embeddings maxClusters minProbability useBIC maxIterations
          logA sqrtA expA randIdx randThresh = .ok res ∧
      softCluster (embeddings.map (fun e => e.2)) res.numClusters maxIterations
          (1 / 2) sqrtA expA randIdx randThresh = .ok (C, raws) ∧
      C.length = res.numClusters ∧
      1 ≤ res.numClusters ∧ res.numClusters ≤ embeddings.length ∧
      (useBIC = true → 1 < min maxClusters embeddings.length →
        res.numClusters = (bicScan (clusterSoftScore logA
            (embeddings.map (fun e => e.2)) maxIterations randIdx randThresh)
          (min maxClusters embeddings.length)).2.1) ∧
      res.softAssignments = (raws.filter
          (fun a => minProbability ≤ a.probability)).map (fun a =>
        { chunkId := (embeddings.getD a.vectorIdx ("", [])).1
          clusterId := a.clusterId
          probability := a.probability }) := by
  set vectors := embeddings.map (fun e => e.2) with hvectors
  have hvlen : vectors.length = embeddings.length := by simp [hvectors]
  have hvne : vectors ≠ [] := by
    intro h
    rw [h] at hvlen
    simp at hvlen
    omega
  set maxK := min maxClusters vectors.length with hmaxK
  have hmaxK1 : 1 ≤ maxK := by
    rw [hmaxK]
    omega
  have hmaxKle : maxK ≤ vectors.length := by
    rw [hmaxK]
    omega
  set scan := if useBIC ∧ 1 < maxK then
      bicScan (clusterSoftScore logA vectors maxIterations randIdx randThresh) maxK
    else ([], maxK, none) with hscan
  have hbestK : 1 ≤ scan.2.1 ∧ scan.2.1 ≤ maxK := by
    rw [hscan]
    by_cases hcond : useBIC ∧ 1 < maxK
    · rw [if_pos hcond]
      unfold bicScan
      obtain ⟨_, hB, hC, _, _, _⟩ := bicScan_inv
        (clusterSoftScore logA vectors maxIterations randIdx randThresh) maxK
      rw [max_eq_right hmaxK1] at hC
      exact ⟨hB, hC⟩
    · rw [if_neg hcond]
      exact ⟨hmaxK1, le_refl _⟩
  obtain ⟨C, hC, hsc⟩ := softCluster_ok vectors scan.2.1 maxIterations (1 / 2)
    sqrtA expA randIdx randThresh hvne (by omega) (by omega)
  have hcs : clusterSoft embeddings maxClusters minProbability useBIC maxIterations
      logA sqrtA expA randIdx randThresh
      = match softCluster vectors scan.2.1 maxIterations (1 / 2) sqrtA expA
          randIdx randThresh with
        | .error e => .error e
        | .ok (centroids, rawAssignments) =>
          .ok { numClusters := scan.2.1
                softAssignments := (rawAssignments.filter
                    (fun a => minProbability ≤ a.probability)).map (fun a =>
                  { chunkId := (embeddings.getD a.vectorIdx ("", [])).1
                    clusterId := a.clusterId
                    probability := a.probability })
                centroids := centroids.enum.map (fun p =>
                  { clusterId := p.1, vector := p.2 })
                metadata := if useBIC = true then some (scan.1, scan.2.1) else none } := by
    unfold clusterSoft
    rw [if_neg (show ¬embeddings.length = 0 by omega),
      if_neg (show ¬embeddings.length = 1 by omega)]
    rw [if_neg (show ¬((embeddings.map (fun e => e.2)).any
        (fun v => v.length ≠ ((embeddings.map (fun e => e.2)).getD 0 []).length) = true) by
      rw [hdims]; simp)]
  rw [hsc] at hcs
  refine ⟨_, C, _, hcs, ?_, hC, ?_, ?_, ?_, rfl⟩
  · exact hsc
  · show 1 ≤ scan.2.1
    omega
  · show scan.2.1 ≤ embeddings.length
    omega
  · intro hu hlt
    show scan.2.1 = (bicScan (clusterSoftScore logA vectors maxIterations
        randIdx randThresh) (min maxClusters embeddings.length)).2.1
    rw [hscan, if_pos ⟨hu, by rw [hmaxK, hvlen]; exact hlt⟩]
    rw [hmaxK, hvlen]

/-- Claim C4.  The BIC-driven selection: over any per-`k` scorer (so in
particular when some `k`s throw and score `none`), the scan's chosen `k`
lies in `[1, maxK]`; the recorded score list contains exactly the
successful `k`s in ascending order (a throwing `k` contributes no entry and
never aborts the scan, which is a total function); the chosen `k`'s BIC is
`≤` the BIC of every tested `k`; on ties the smaller (first-scanned) `k` is
kept, because the comparison is strict `<` over ascending `k`; and the
final best BIC is one of the recorded scores.  Moreover `clusterSoft` with
`useBIC` and more than one candidate `k` reports exactly the scan's chosen
`k` as its cluster count. -/
theorem claim_C4_bic_selection :
    (∀ (score : ℕ → Option ℚ) (maxK : ℕ), 1 ≤ maxK →
      1 ≤ (bicScan score maxK).2.1 ∧
      (bicScan score maxK).2.1 ≤ maxK ∧
      (bicScan score maxK).1
          = (List.range' 1 maxK).filterMap (fun k => (score k).map (fun b => (k, b))) ∧
      (∀ k, score k = none → ∀ p ∈ (bicScan score maxK).1, p.1 ≠ k) ∧
      (∀ p ∈ (bicScan score maxK).1, ∀ b, (bicScan score maxK).2.2 = some b →
        b ≤ p.2 ∧ (p.2 = b → (bicScan score maxK).2.1 ≤ p.1)) ∧
      (∀ b, (bicScan score maxK).2.2 = some b →
        ((bicScan score maxK).2.1, b) ∈ (bicScan score maxK).1)) ∧
    (∀ (embeddings : List (String × Vec)) (maxClusters : ℕ) (minProbability : ℚ)
        (maxIterations : ℕ) (logA sqrtA expA : ℚ → ℚ)
        (randIdx : ℕ → ℕ) (randThresh : ℕ → ℚ),
      2 ≤ embeddings.length → 1 ≤ maxClusters →
      (embeddings.map (fun e => e.2)).any
          (fun v => v.length ≠ ((embeddings.map (fun e => e.2)).getD 0 []).length) = false →
      1 < min maxClusters embeddings.length →
      ∃ res, clusterSoft embeddings maxClusters minProbability true maxIterations
          logA sqrtA expA randIdx randThresh = .ok res ∧
        res.numClusters = (bicScan (clusterSoftScore logA
            (embeddings.map (fun e => e.2)) maxIterations randIdx randThresh)
          (min maxClusters embeddings.length)).2.1) := by
  constructor
  · intro score maxK h1
    have hinv := bicScan_inv score maxK
    obtain ⟨hA, hB, hC, hD, _, hF⟩ := hinv
    have hbic : bicScan score maxK = (List.range' 1 maxK).foldl (bicScanStep score) ([], 1, none) := rfl
    rw [max_eq_right h1] at hC
    refine ⟨by rw [hbic]; exact hB, by rw [hbic]; exact hC, by rw [hbic]; exact hA,
      ?_, by rw [hbic]; exact hD, by rw [hbic]; exact hF⟩
    intro k hk p hp
    rw [hbic, hA] at hp
    rw [List.mem_filterMap] at hp
    obtain ⟨a, _, ha⟩ := hp
    intro hpk
    cases hsa : score a with
    | none => rw [hsa] at ha; simp at ha
    | some b =>
      rw [hsa] at ha
      simp only [Option.map_some'] at ha
      have ha' : (a, b) = p := Option.some.inj ha
      have ha1 : p.1 = a := by rw [← ha']
      rw [hpk] at ha1
      rw [← ha1] at hsa
      rw [hk] at hsa
      exact Option.noConfusion hsa
  · intro embeddings maxClusters minProbability maxIterations logA sqrtA expA
      randIdx randThresh h2 hmc hdims hlt
    obtain ⟨res, C, raws, hok, _, _, _, _, hlink, _⟩ := clusterSoft_main embeddings
      maxClusters minProbability true maxIterations logA sqrtA expA
      randIdx randThresh h2 hmc hdims
    exact ⟨res, hok, hlink rfl hlt⟩

/-- Witness for C4: a scorer with a throwing `k = 2` over `maxK = 3`, and a
concrete `clusterSoft` run. -/
theorem claim_C4_bic_selection_witness :
    (1 ≤ (bicScan skipScore 3).2.1 ∧
      (bicScan skipScore 3).2.1 ≤ 3 ∧
      (bicScan skipScore 3).1
          = (List.range' 1 3).filterMap (fun k => (skipScore k).map (fun b => (k, b))) ∧
      (∀ k, skipScore k = none → ∀ p ∈ (bicScan skipScore 3).1, p.1 ≠ k) ∧
      (∀ p ∈ (bicScan skipScore 3).1, ∀ b, (bicScan skipScore 3).2.2 = some b →
        b ≤ p.2 ∧ (p.2 = b → (bicScan skipScore 3).2.1 ≤ p.1)) ∧
      (∀ b, (bicScan skipScore 3).2.2 = some b →
        ((bicScan skipScore 3).2.1, b) ∈ (bicScan skipScore 3).1)) ∧
    (∃ res, clusterSoft [("a", [0]), ("b", [1])] 2 0 true 10
        (fun x => x) (fun x => x) (fun x => x) (fun _ => 0) (fun _ => 0) = .ok res ∧
      res.numClusters = (bicScan (clusterSoftScore (fun x => x)
          (([("a", [0]), ("b", [1])] : List (String × Vec)).map (fun e => e.2)) 10
          (fun _ => 0) (fun _ => 0))
        (min 2 (([("a", [0]), ("b", [1])] : List (String × Vec)).length))).2.1) := by
  constructor
  · exact claim_C4_bic_selection.1 skipScore 3 (by decide)
  · exact claim_C4_bic_selection.2 [("a", [0]), ("b", [1])] 2 0 10
      (fun x => x) (fun x => x) (fun x => x) (fun _ => 0) (fun _ => 0)
      (by decide) (by decide) (by decide) (by decide)

lemma sum_map_div (l : List ℚ) (c : ℚ) :
    (l.map (fun e => e / c)).sum = l.sum / c := by
  induction l with
  | nil => simp
  | cons a l ih => simp [ih, add_div]

/-- Normalizing a non-empty list of positive entries by its sum yields
entries in `(0, 1]` summing to `1`. -/
lemma map_div_sum_bounds (l : List ℚ) (hpos : ∀ x ∈ l, 0 < x) (hne : l ≠ []) :
    (∀ p ∈ l.map (fun e => e / l.sum), 0 < p ∧ p ≤ 1) ∧
      (l.map (fun e => e / l.sum)).sum = 1 := by
  have hsum : 0 < l.sum := List.sum_pos l hpos hne
  constructor
  · intro p hp
    rw [List.mem_map] at hp
    obtain ⟨e, he, rfl⟩ := hp
    refine ⟨div_pos (hpos e he) hsum, ?_⟩
    exact div_le_one_of_le₀
      (List.single_le_sum (fun x hx => le_of_lt (hpos x hx)) e he) (le_of_lt hsum)
  · rw [sum_map_div, div_self (ne_of_gt hsum)]

/-- Softmax with any positive exponential: every output is in `(0, 1]` and
the outputs sum to `1`. -/
lemma softmax_spec (expA : ℚ → ℚ) (hexp : ∀ x, 0 < expA x) (d : List ℚ)
    (t : ℚ) (hne : d ≠ []) :
    (∀ p ∈ softmax expA d t, 0 < p ∧ p ≤ 1) ∧ (softmax expA d t).sum = 1 := by
  unfold softmax
  refine map_div_sum_bounds _ ?_ ?_
  · intro x hx
    rw [List.mem_map] at hx
    obtain ⟨s, _, rfl⟩ := hx
    exact hexp _
  · simp [List.map_eq_nil_iff]
    exact hne

lemma softmax_length (expA : ℚ → ℚ) (d : List ℚ) (t : ℚ) :
    (softmax expA d t).length = d.length := by
  simp [softmax]

lemma filter_flatMap {α β : Type} (l : List α) (f : α → List β) (p : β → Bool) :
    (l.flatMap f).filter p = l.flatMap (fun a => (f a).filter p) := by
  induction l with
  | nil => rfl
  | cons a l ih => simp [List.flatMap_cons, List.filter_append, ih]

lemma flatMap_delta {α : Type} (g : ℕ → List α) (n i : ℕ) (hi : i < n) :
    ((List.range n).flatMap (fun x => if x = i then g x else [])) = g i := by
  induction n with
  | zero => omega
  | succ n ihn =>
    rw [List.range_succ, List.flatMap_append]
    rcases Nat.lt_or_ge i n with h | h
    · have htail : ([n] : List ℕ).flatMap (fun x => if x = i then g x else []) = [] := by
        simp [show ¬n = i by omega]
      rw [ihn h, htail, List.append_nil]
    · have hin : i = n := by omega
      subst hin
      have hnil : (List.range i).flatMap (fun x => if x = i then g x else []) = [] := by
        rw [List.flatMap_eq_nil_iff]
        intro x hx
        rw [List.mem_range] at hx
        rw [if_neg (by omega)]
      rw [hnil]
      simp

lemma filter_map_sum_le {α : Type} (l : List α) (f : α → ℚ) (p : α → Bool)
    (hf : ∀ x ∈ l, 0 ≤ f x) :
    ((l.filter p).map f).sum ≤ (l.map f).sum := by
  induction l with
  | nil => simp
  | cons a l ih =>
    have ha := hf a (by simp)
    have ih' := ih (fun x hx => hf x (by simp [hx]))
    by_cases hp : p a
    · rw [List.filter_cons, if_pos hp]
      simp only [List.map_cons, List.sum_cons]
      exact add_le_add_left ih' _
    · rw [List.filter_cons, if_neg (by simpa using hp)]
      simp only [List.map_cons, List.sum_cons]
      linarith

lemma range_map_getD {α : Type} (l : List α) (d : α) :
    (List.range l.length).map (fun j => l.getD j d) = l := by
  apply List.ext_getElem (by simp)
  intro i h1 h2
  simp only [List.getElem_map, List.getElem_range]
  exact List.getD_eq_getElem l d h2

/-- Claim C6.  On the main path, `clusterSoft` computes one raw soft
assignment for every `(point, cluster)` pair — the pair list is exactly
`range n × range k`, without duplicates — and emits exactly those raw
assignments whose temperature-scaled softmax probability clears
`minProbability`, dropped pairs not being renormalized: the emitted list is
the plain filter of the raw list.  Every raw (hence every emitted)
probability lies in `(0, 1]`, and the probabilities a single point keeps
after the cutoff sum to at most `1` (the full softmax row sums to exactly
`1`).  Quantified over every positive stand-in for `Math.exp`. -/
theorem claim_C6_soft_cutoff
    (embeddings : List (String × Vec)) (maxClusters : ℕ) (minProbability : ℚ)
    (useBIC : Bool) (maxIterations : ℕ) (logA sqrtA expA : ℚ → ℚ)
    (randIdx : ℕ → ℕ) (randThresh : ℕ → ℚ)
    (hexp : ∀ x, 0 < expA x)
    (h2 : 2 ≤ embeddings.length) (hmc : 1 ≤ maxClusters)
    (hdims : (embeddings.map (fun e => e.2)).any
      (fun v => v.length ≠ ((embeddings.map (fun e => e.2)).getD 0 []).length) = false) :
    ∃ res C raws,
      clusterSoft embeddings maxClusters minProbability useBIC maxIterations
          logA sqrtA expA randIdx randThresh = .ok res ∧
      softCluster (embeddings.map (fun e => e.2)) res.numClusters maxIterations (1 / 2)
          sqrtA expA randIdx randThresh = .ok (C, raws) ∧
      raws.map (fun a => (a.vectorIdx, a.clusterId))
          = (List.range embeddings.length).product (List.range res.numClusters) ∧
      (raws.map (fun a => (a.vectorIdx, a.clusterId))).Nodup ∧
      res.softAssignments = (raws.filter (fun a => minProbability ≤ a.probability)).map
          (fun a => { chunkId := (embeddings.getD a.vectorIdx ("", [])).1
                      clusterId := a.clusterId
                      probability := a.probability }) ∧
      (∀ a ∈ raws, 0 < a.probability ∧ a.probability ≤ 1) ∧
      (∀ a ∈ res.softAssignments,
        minProbability ≤ a.probability ∧ 0 < a.probability ∧ a.probability ≤ 1) ∧
      (∀ i, i < embeddings.length →
        (((raws.filter (fun a => a.vectorIdx = i)).filter
            (fun a => minProbability ≤ a.probability)).map
          (fun a => a.probability)).sum ≤ 1) := by
  obtain ⟨res, C, raws, hok, hsc, hClen, h1k, hkn, _, hfil⟩ :=
    clusterSoft_main embeddings maxClusters minProbability useBIC maxIterations
      logA sqrtA expA randIdx randThresh h2 hmc hdims
  set vectors := embeddings.map (fun e => e.2) with hvectors
  have hvlen : vectors.length = embeddings.length := by simp [hvectors]
  have hvne : vectors ≠ [] := by
    intro h
    rw [h] at hvlen
    simp at hvlen
    omega
  set k := res.numClusters with hk
  obtain ⟨C', hC'len, hsc'⟩ := softCluster_ok vectors k maxIterations (1 / 2)
    sqrtA expA randIdx randThresh hvne (by omega) (by omega)
  rw [hsc] at hsc'
  have hCR := Except.ok.inj hsc'
  have hCeq : C = C' := congrArg Prod.fst hCR
  have hraws := congrArg Prod.snd hCR
  simp only at hraws
  rw [← hCeq] at hraws
  set P : ℕ → List ℚ := fun i =>
    softmax expA (C.map (fun c => sqrtA (euclideanDistSq (vectors.getD i []) c))) (1 / 2)
    with hP
  have hCne : C ≠ [] := by
    intro h
    rw [h] at hClen
    simp at hClen
    omega
  have hdne : ∀ i, C.map (fun c => sqrtA (euclideanDistSq (vectors.getD i []) c)) ≠ [] := by
    intro i h
    rw [List.map_eq_nil_iff] at h
    exact hCne h
  have hPlen : ∀ i, (P i).length = k := by
    intro i
    rw [hP]
    simp only [softmax_length, List.length_map]
    exact hClen
  have hPspec : ∀ i, (∀ p ∈ P i, 0 < p ∧ p ≤ 1) ∧ (P i).sum = 1 := by
    intro i
    exact softmax_spec expA hexp _ _ (hdne i)
  have hrawmem : ∀ a ∈ raws, ∃ i j, i < vectors.length ∧ j < k ∧
      a = { vectorIdx := i, clusterId := j, probability := (P i).getD j 0 } := by
    intro a ha
    rw [hraws] at ha
    rw [List.mem_flatMap] at ha
    obtain ⟨i, hi, hmem⟩ := ha
    rw [List.mem_map] at hmem
    obtain ⟨j, hj, rfl⟩ := hmem
    rw [List.mem_range] at hi hj
    exact ⟨i, j, hi, hj, rfl⟩
  have hrawbound : ∀ a ∈ raws, 0 < a.probability ∧ a.probability ≤ 1 := by
    intro a ha
    obtain ⟨i, j, hi, hj, rfl⟩ := hrawmem a ha
    have hjP : j < (P i).length := by rw [hPlen]; exact hj
    have hmem : (P i).getD j 0 ∈ P i := by
      rw [List.getD_eq_getElem (P i) 0 hjP]
      exact List.getElem_mem hjP
    exact (hPspec i).1 _ hmem
  refine ⟨res, C, raws, hok, hsc, ?_, ?_, hfil, hrawbound, ?_, ?_⟩
  · -- one raw pair per (point, cluster)
    rw [hraws, List.map_flatMap]
    have hinner : ∀ i, (((List.range k).map (fun j =>
        ({ vectorIdx := i, clusterId := j,
           probability := (P i).getD j 0 } : SoftRaw))).map
          (fun a => (a.vectorIdx, a.clusterId)))
        = (List.range k).map (fun j => (i, j)) := by
      intro i
      rw [List.map_map]
      rfl
    calc (List.range vectors.length).flatMap (fun i =>
          ((List.range k).map (fun j =>
            ({ vectorIdx := i, clusterId := j,
               probability := (P i).getD j 0 } : SoftRaw))).map
            (fun a => (a.vectorIdx, a.clusterId)))
        = (List.range vectors.length).flatMap (fun i =>
            (List.range k).map (fun j => (i, j))) := by
          apply congrArg
          funext i
          exact hinner i
      _ = (List.range embeddings.length).product (List.range k) := by
          rw [hvlen]
          rfl
  · -- no duplicate pairs
    have hprod : raws.map (fun a => (a.vectorIdx, a.clusterId))
        = (List.range embeddings.length).product (List.range k) := by
      rw [hraws, List.map_flatMap]
      calc (List.range vectors.length).flatMap (fun i =>
            ((List.range k).map (fun j =>
              ({ vectorIdx := i, clusterId := j,
                 probability := (P i).getD j 0 } : SoftRaw))).map
              (fun a => (a.vectorIdx, a.clusterId)))
          = (List.range vectors.length).flatMap (fun i =>
              (List.range k).map (fun j => (i, j))) := by
            apply congrArg
            funext i
            rw [List.map_map]
            rfl
        _ = (List.range embeddings.length).product (List.range k) := by
            rw [hvlen]
            rfl
    rw [hprod]
    exact List.Nodup.product (List.nodup_range _) (List.nodup_range _)
  · -- emitted probabilities clear the cutoff and are in (0, 1]
    intro a ha
    rw [hfil] at ha
    rw [List.mem_map] at ha
    obtain ⟨b, hb, rfl⟩ := ha
    rw [List.mem_filter] at hb
    obtain ⟨hbmem, hbcut⟩ := hb
    have hcut : minProbability ≤ b.probability := by simpa using hbcut
    have hbd := hrawbound b hbmem
    exact ⟨hcut, hbd.1, hbd.2⟩
  · -- a point's surviving probabilities sum to at most 1
    intro i hi
    have hfi : raws.filter (fun a => a.vectorIdx = i)
        = (List.range k).map (fun j =>
            ({ vectorIdx := i, clusterId := j,
               probability := (P i).getD j 0 } : SoftRaw)) := by
      rw [hraws, filter_flatMap]
      have hstep : ∀ i' : ℕ, (((List.range k).map (fun j =>
          ({ vectorIdx := i', clusterId := j,
             probability := (P i').getD j 0 } : SoftRaw))).filter
            (fun a => a.vectorIdx = i))
          = if i' = i then (List.range k).map (fun j =>
              ({ vectorIdx := i', clusterId := j,
                 probability := (P i').getD j 0 } : SoftRaw)) else [] := by
        intro i'
        rw [List.filter_map]
        by_cases h : i' = i
        · rw [if_pos h]
          have : ((fun a : SoftRaw => decide (a.vectorIdx = i)) ∘ (fun j =>
              ({ vectorIdx := i', clusterId := j,
                 probability := (P i').getD j 0 } : SoftRaw)))
              = fun _ => true := by
            funext j
            simp [h]
          rw [this, List.filter_true]
        · rw [if_neg h]
          have : ((fun a : SoftRaw => decide (a.vectorIdx = i)) ∘ (fun j =>
              ({ vectorIdx := i', clusterId := j,
                 probability := (P i').getD j 0 } : SoftRaw)))
              = fun _ => false := by
            funext j
            simp [h]
          rw [this, List.filter_false]
          simp
      calc (List.range vectors.length).flatMap (fun i' =>
            ((List.range k).map (fun j =>
              ({ vectorIdx := i', clusterId := j,
                 probability := (P i').getD j 0 } : SoftRaw))).filter
              (fun a => a.vectorIdx = i))
          = (List.range vectors.length).flatMap (fun i' =>
              if i' = i then (List.range k).map (fun j =>
                ({ vectorIdx := i', clusterId := j,
                   probability := (P i').getD j 0 } : SoftRaw)) else []) := by
            apply congrArg
            funext i'
            exact hstep i'
        _ = _ := flatMap_delta _ vectors.length i (by omega)
    have hnn : ∀ a ∈ (List.range k).map (fun j =>
        ({ vectorIdx := i, clusterId := j,
           probability := (P i).getD j 0 } : SoftRaw)), 0 ≤ a.probability := by
      intro a ha
      have hmem : a ∈ raws := by
        have := hfi ▸ ha
        exact List.mem_of_mem_filter (hfi ▸ ha : a ∈ raws.filter (fun a => a.vectorIdx = i))
      exact le_of_lt (hrawbound a hmem).1
    rw [hfi]
    have hle := filter_map_sum_le _ (fun a : SoftRaw => a.probability)
      (fun a => minProbability ≤ a.probability) hnn
    refine le_trans hle ?_
    have hmm : (((List.range k).map (fun j =>
        ({ vectorIdx := i, clusterId := j,
           probability := (P i).getD j 0 } : SoftRaw))).map
          (fun a => a.probability))
        = (List.range k).map (fun j => (P i).getD j 0) := by
      rw [List.map_map]
      rfl
    rw [hmm]
    have hrg : (List.range k).map (fun j => (P i).getD j 0) = P i := by
      have := range_map_getD (P i) 0
      rw [hPlen i] at this
      exact this
    rw [hrg, (hPspec i).2]

/-- Witness for C6: two 1-dimensional points, `expA` the constant `1`
(positive), cutoff `0`. -/
theorem claim_C6_soft_cutoff_witness :
    ∃ res C raws,
      clusterSoft [("a", [0]), ("b", [1])] 2 0 false 10
          (fun x => x) (fun x => x) (fun _ => 1) (fun _ => 0) (fun _ => 0) = .ok res ∧
      softCluster (([("a", [0]), ("b", [1])] : List (String × Vec)).map (fun e => e.2))
          res.numClusters 10 (1 / 2)
          (fun x => x) (fun _ => 1) (fun _ => 0) (fun _ => 0) = .ok (C, raws) ∧
      raws.map (fun a => (a.vectorIdx, a.clusterId))
          = (List.range ([("a", [0]), ("b", [1])] : List (String × Vec)).length).product
              (List.range res.numClusters) ∧
      (raws.map (fun a => (a.vectorIdx, a.clusterId))).Nodup ∧
      res.softAssignments = (raws.filter (fun a => (0 : ℚ) ≤ a.probability)).map
          (fun a =>
            { chunkId := (([("a", [0]), ("b", [1])] : List (String × Vec)).getD
                a.vectorIdx ("", [])).1
              clusterId := a.clusterId
              probability := a.probability }) ∧
      (∀ a ∈ raws, 0 < a.probability ∧ a.probability ≤ 1) ∧
      (∀ a ∈ res.softAssignments,
        (0 : ℚ) ≤ a.probability ∧ 0 < a.probability ∧ a.probability ≤ 1) ∧
      (∀ i, i < ([("a", [0]), ("b", [1])] : List (String × Vec)).length →
        (((raws.filter (fun a => a.vectorIdx = i)).filter
            (fun a => (0 : ℚ) ≤ a.probability)).map
          (fun a => a.probability)).sum ≤ 1) :=
  claim_C6_soft_cutoff [("a", [0]), ("b", [1])] 2 0 false 10
    (fun x => x) (fun x => x) (fun _ => 1) (fun _ => 0) (fun _ => 0)
    (fun _ => by norm_num) (by decide) (by decide) (by decide)

lemma sum_map_range_eq (g : ℕ → ℝ) (n : ℕ) :
    ((List.range n).map g).sum = ∑ i ∈ Finset.range n, g i := by
  induction n with
  | zero => simp
  | succ n ih =>
    rw [List.range_succ, List.map_append, List.sum_append, Finset.sum_range_succ, ih]
    simp

/-- Counterexample to C5.  The claimed formula
`BIC = n·ln(RSS/n + ε) + p·ln(n)` adds the guard constant *after* dividing
by `n`; the code computes `n·ln((RSS + ε)/n)`, adding it *before*.  At two
1-dimensional points with one centroid (`RSS = 2`, `n = 2`) the two values
differ, since `(2+ε)/2 < 1+ε` and `ln` is strictly monotone. -/
theorem claim_C5_counterexample :
    calculateBICLog [[0], [2]] [[1]] [0, 0] ≠ specStatedBIC [[0], [2]] [[1]] [0, 0] := by
  have hrss : bicRSS [[0], [2]] [[1]] [0, 0] = 2 := by
    norm_num [bicRSS, euclideanDistSq, List.range_succ]
  have hlt : Real.log ((2 + 1 / 10 ^ 10) / 2) < Real.log (1 + 1 / 10 ^ 10) := by
    apply Real.log_lt_log
    · norm_num
    · norm_num
  have hcalc : calculateBICLog [[0], [2]] [[1]] [0, 0]
      = 2 * Real.log ((2 + 1 / 10 ^ 10) / 2) + 1 * Real.log 2 := by
    simp only [calculateBICLog, hrss]
    norm_num
  have hspec : specStatedBIC [[0], [2]] [[1]] [0, 0]
      = 2 * Real.log (1 + 1 / 10 ^ 10) + 1 * Real.log 2 := by
    simp only [specStatedBIC, hrss]
    norm_num
  rw [hcalc, hspec]
  intro heq
  have hlogeq : Real.log ((2 + 1 / 10 ^ 10) / 2) = Real.log (1 + 1 / 10 ^ 10) := by
    linarith
  linarith

/-- Claim C5, amended.  The computed model-order score is
`BIC = n·ln((RSS + ε)/n) + p·ln(n)` — the guard constant `ε = 1e-10` is
added to the residual sum *before* the division by `n` — with
`RSS = Σᵢ ‖xᵢ − c(xᵢ)‖²` (the source squares the Euclidean distance, which
recovers exactly the squared distance) and parameter count
`p = k·d + (k − 1)`. -/
theorem claim_C5_bic_formula (vectors centroids : List Vec) (assignments : List ℕ) :
    calculateBICLog vectors centroids assignments
      = (vectors.length : ℝ) * Real.log
          (((∑ i ∈ Finset.range vectors.length,
              ((euclideanDistSq (vectors.getD i [])
                (centroids.getD (assignments.getD i 0) []) : ℚ) : ℝ)) + 1 / 10 ^ 10)
            / (vectors.length : ℝ))
        + ((centroids.length : ℝ) * ((vectors.getD 0 []).length : ℝ)
            + ((centroids.length : ℝ) - 1)) * Real.log (vectors.length : ℝ) := by
  have hsum : ((((List.range vectors.length).map (fun i =>
      euclideanDistSq (vectors.getD i [])
        (centroids.getD (assignments.getD i 0) []))).sum : ℚ) : ℝ)
      = ∑ i ∈ Finset.range vectors.length,
          ((euclideanDistSq (vectors.getD i [])
            (centroids.getD (assignments.getD i 0) []) : ℚ) : ℝ) := by
    rw [show ((((List.range vectors.length).map (fun i =>
        euclideanDistSq (vectors.getD i [])
          (centroids.getD (assignments.getD i 0) []))).sum : ℚ) : ℝ)
        = (Rat.castHom ℝ) (((List.range vectors.length).map (fun i =>
            euclideanDistSq (vectors.getD i [])
              (centroids.getD (assignments.getD i 0) []))).sum) from rfl]
    rw [map_list_sum, List.map_map, sum_map_range_eq]
    rfl
  simp only [calculateBICLog, bicRSS]
  rw [hsum]

lemma getD_mem_of_lt {α : Type} (l : List α) (d : α) {j : ℕ} (h : j < l.length) :
    l.getD j d ∈ l := by
  rw [List.getD_eq_getElem l d h]
  exact List.getElem_mem h

lemma getD_append_last {α : Type} (l : List α) (c : α) (d : α) :
    (l ++ [c]).getD l.length d = c := by
  rw [List.getD_append_right l [c] d l.length (le_refl _)]
  simp

/-- Invariant of `mapCluster`'s scanning loop: either no concept reached the
threshold and the state is `none`, or the state holds the id and similarity
of the *first* concept attaining the maximal similarity, which reaches the
threshold. -/
lemma mapClusterFold_inv (sqrtA : ℚ → ℚ) (cv : Vec) (t : ℚ)
    (cs : List ConceptInput) :
    (mapClusterFold sqrtA cv t cs = none ∧
      ∀ c ∈ cs, cosineSimilarity sqrtA cv c.embedding < t) ∨
    (∃ i, i < cs.length ∧
      mapClusterFold sqrtA cv t cs
        = some ((cs.getD i default).id,
            cosineSimilarity sqrtA cv (cs.getD i default).embedding) ∧
      t ≤ cosineSimilarity sqrtA cv (cs.getD i default).embedding ∧
      (∀ j, j < cs.length →
        cosineSimilarity sqrtA cv (cs.getD j default).embedding
          ≤ cosineSimilarity sqrtA cv (cs.getD i default).embedding) ∧
      (∀ j, j < i → t ≤ cosineSimilarity sqrtA cv (cs.getD j default).embedding →
        cosineSimilarity sqrtA cv (cs.getD j default).embedding
          < cosineSimilarity sqrtA cv (cs.getD i default).embedding)) := by
  induction cs using List.reverseRecOn with
  | nil =>
    left
    exact ⟨rfl, by intro c hc; simp at hc⟩
  | append_singleton cs c ih =>
    have hfold : mapClusterFold sqrtA cv t (cs ++ [c])
        = conceptStep sqrtA cv t (mapClusterFold sqrtA cv t cs) c := by
      unfold mapClusterFold
      rw [List.foldl_append, List.foldl_cons, List.foldl_nil]
    have hlast : (cs ++ [c]).getD cs.length default = c := getD_append_last cs c default
    rcases ih with ⟨hnone, hall⟩ | ⟨i, hi, hsome, hts, hmax, hfirst⟩
    · by_cases hct : t ≤ cosineSimilarity sqrtA cv c.embedding
      · right
        refine ⟨cs.length, by simp, ?_, ?_, ?_, ?_⟩
        · rw [hfold, hnone]
          unfold conceptStep
          rw [if_pos hct, hlast]
        · rw [hlast]
          exact hct
        · intro j hj
          rw [hlast]
          simp only [List.length_append, List.length_singleton] at hj
          rcases Nat.lt_or_ge j cs.length with hj' | hj'
          · rw [List.getD_append _ _ _ _ hj']
            exact le_of_lt (lt_of_lt_of_le
              (hall _ (getD_mem_of_lt cs default hj')) hct)
          · have hjl : j = cs.length := by omega
            rw [hjl, hlast]
        · intro j hj hctj
          exfalso
          rw [List.getD_append _ _ _ _ hj] at hctj
          exact absurd hctj (not_le.mpr (hall _ (getD_mem_of_lt cs default hj)))
      · left
        refine ⟨?_, ?_⟩
        · rw [hfold, hnone]
          unfold conceptStep
          rw [if_neg hct]
        · intro x hx
          rw [List.mem_append] at hx
          rcases hx with hx | hx
          · exact hall x hx
          · rw [List.mem_singleton] at hx
            subst hx
            exact not_le.mp hct
    · have hgi : (cs ++ [c]).getD i default = cs.getD i default :=
        List.getD_append _ _ _ _ hi
      by_cases hct : t ≤ cosineSimilarity sqrtA cv c.embedding
      · by_cases hcmp : cosineSimilarity sqrtA cv (cs.getD i default).embedding
            < cosineSimilarity sqrtA cv c.embedding
        · right
          refine ⟨cs.length, by simp, ?_, ?_, ?_, ?_⟩
          · rw [hfold, hsome]
            unfold conceptStep
            rw [if_pos hct]
            simp only [if_pos hcmp]
            rw [hlast]
          · rw [hlast]
            exact hct
          · intro j hj
            rw [hlast]
            simp only [List.length_append, List.length_singleton] at hj
            rcases Nat.lt_or_ge j cs.length with hj' | hj'
            · rw [List.getD_append _ _ _ _ hj']
              exact le_of_lt (lt_of_le_of_lt (hmax j hj') hcmp)
            · have hjl : j = cs.length := by omega
              rw [hjl, hlast]
          · intro j hj hctj
            rw [hlast]
            rw [List.getD_append _ _ _ _ hj] at hctj ⊢
            exact lt_of_le_of_lt (hmax j hj) hcmp
        · right
          refine ⟨i, by simp; omega, ?_, ?_, ?_, ?_⟩
          · rw [hfold, hsome]
            unfold conceptStep
            rw [if_pos hct]
            simp only [if_neg hcmp]
            rw [hgi]
          · rw [hgi]
            exact hts
          · intro j hj
            rw [hgi]
            simp only [List.length_append, List.length_singleton] at hj
            rcases Nat.lt_or_ge j cs.length with hj' | hj'
            · rw [List.getD_append _ _ _ _ hj']
              exact hmax j hj'
            · have hjl : j = cs.length := by omega
              rw [hjl, hlast]
              exact le_of_not_lt hcmp
          · intro j hj hctj
            rw [hgi]
            rw [List.getD_append _ _ _ _ (by omega : j < cs.length)] at hctj ⊢
            exact hfirst j hj hctj
      · right
        refine ⟨i, by simp; omega, ?_, ?_, ?_, ?_⟩
        · rw [hfold, hsome]
          unfold conceptStep
          rw [if_neg hct, hgi]
        · rw [hgi]
          exact hts
        · intro j hj
          rw [hgi]
          simp only [List.length_append, List.length_singleton] at hj
          rcases Nat.lt_or_ge j cs.length with hj' | hj'
          · rw [List.getD_append _ _ _ _ hj']
            exact hmax j hj'
          · have hjl : j = cs.length := by omega
            rw [hjl, hlast]
            exact le_trans (le_of_not_le hct) hts
        · intro j hj hctj
          rw [hgi]
          rw [List.getD_append _ _ _ _ (by omega : j < cs.length)] at hctj ⊢
          exact hfirst j hj hctj

/-- Counterexample to C9.  The claim promises a *non-empty* suggested
label whenever no concept matches.  With an empty summary text the source
computes `"".split(/[.!?]/)[0].slice(0, 50) === ""`: `mapCluster` returns
`matched = false` with an *empty* suggested label. -/
theorem claim_C9_counterexample :
    (mapCluster (fun x => x) ⟨0, "", [1]⟩ [] (1 / 2)).matched = false ∧
    (mapCluster (fun x => x) ⟨0, "", [1]⟩ [] (1 / 2)).suggestedLabel = some "" := by
  constructor <;> rfl

/-- Claim C9, amended.  `mapCluster` returns `matched = true` iff some
concept's cosine similarity to the centroid reaches the threshold; in that
case the reported concept is the *first* one attaining the maximal
similarity (the running maximum is replaced only on strictly greater
similarity, scanning in input order) and the confidence is that maximal
similarity.  Otherwise it returns the suggested label derived from the
summary's first sentence truncated to 50 characters — which is non-empty
whenever the summary's first character exists and is not a sentence
delimiter (for an empty first sentence the label is empty, see the
counterexample). -/
theorem claim_C9_concept_match (sqrtA : ℚ → ℚ) (cluster : ClusterInput)
    (concepts : List ConceptInput) (threshold : ℚ) :
    ((mapCluster sqrtA cluster concepts threshold).matched = true ↔
      ∃ c ∈ concepts,
        threshold ≤ cosineSimilarity sqrtA cluster.centroid c.embedding) ∧
    ((mapCluster sqrtA cluster concepts threshold).matched = true →
      ∃ i, i < concepts.length ∧
        (mapCluster sqrtA cluster concepts threshold).conceptId
            = some (concepts.getD i default).id ∧
        (mapCluster sqrtA cluster concepts threshold).confidence
            = some (cosineSimilarity sqrtA cluster.centroid
                (concepts.getD i default).embedding) ∧
        threshold ≤ cosineSimilarity sqrtA cluster.centroid
            (concepts.getD i default).embedding ∧
        (∀ j, j < concepts.length →
          cosineSimilarity sqrtA cluster.centroid (concepts.getD j default).embedding
            ≤ cosineSimilarity sqrtA cluster.centroid
                (concepts.getD i default).embedding) ∧
        (∀ j, j < i →
          threshold ≤ cosineSimilarity sqrtA cluster.centroid
              (concepts.getD j default).embedding →
          cosineSimilarity sqrtA cluster.centroid (concepts.getD j default).embedding
            < cosineSimilarity sqrtA cluster.centroid
                (concepts.getD i default).embedding)) ∧
    ((mapCluster sqrtA cluster concepts threshold).matched = false →
      (mapCluster sqrtA cluster concepts threshold).suggestedLabel
          = some (suggestedLabelOf cluster.summary)) ∧
    (∀ (ch : Char) (rest : List Char),
      ¬(ch = '.' ∨ ch = '!' ∨ ch = '?') →
      suggestedLabelOf (String.mk (ch :: rest)) ≠ "") := by
  have hlabel : ∀ (ch : Char) (rest : List Char),
      ¬(ch = '.' ∨ ch = '!' ∨ ch = '?') →
      suggestedLabelOf (String.mk (ch :: rest)) ≠ "" := by
    intro ch rest hch heq
    unfold suggestedLabelOf at heq
    rw [show (String.mk (ch :: rest)).data = ch :: rest from rfl] at heq
    rw [List.takeWhile_cons, if_pos (by simpa using hch)] at heq
    have := congrArg String.data heq
    simp at this
  rcases mapClusterFold_inv sqrtA cluster.centroid threshold concepts with
    ⟨hnone, hall⟩ | ⟨i, hi, hsome, hts, hmax, hfirst⟩
  · have hm : mapCluster sqrtA cluster concepts threshold
        = { clusterId := cluster.id, matched := false, conceptId := none
            confidence := none
            suggestedLabel := some (suggestedLabelOf cluster.summary) } := by
      unfold mapCluster
      rw [hnone]
    refine ⟨?_, ?_, ?_, hlabel⟩
    · rw [hm]
      constructor
      · intro h
        simp at h
      · intro ⟨c, hc, hct⟩
        exact absurd hct (not_le.mpr (hall c hc))
    · rw [hm]
      intro h
      simp at h
    · intro _
      rw [hm]
  · have hm : mapCluster sqrtA cluster concepts threshold
        = { clusterId := cluster.id, matched := true
            conceptId := some (concepts.getD i default).id
            confidence := some (cosineSimilarity sqrtA cluster.centroid
              (concepts.getD i default).embedding)
            suggestedLabel := none } := by
      unfold mapCluster
      rw [hsome]
    refine ⟨?_, ?_, ?_, hlabel⟩
    · rw [hm]
      constructor
      · intro _
        exact ⟨concepts.getD i default, getD_mem_of_lt concepts default hi, hts⟩
      · intro _
        rfl
    · intro _
      exact ⟨i, hi, by rw [hm], by rw [hm], hts, hmax, hfirst⟩
    · rw [hm]
      intro h
      simp at h

/-- Witness for C9: a matching concept at threshold `0`; the no-match path
at an empty catalogue; a non-delimiter first character. -/
theorem claim_C9_concept_match_witness :
    (mapCluster (fun x => x) ⟨0, "s", [1]⟩ [⟨"c", "l", [1]⟩] 0).matched = true ∧
    (∃ i, i < ([⟨"c", "l", [1]⟩] : List ConceptInput).length ∧
      (mapCluster (fun x => x) ⟨0, "s", [1]⟩ [⟨"c", "l", [1]⟩] 0).conceptId
          = some (([⟨"c", "l", [1]⟩] : List ConceptInput).getD i default).id ∧
      (mapCluster (fun x => x) ⟨0, "s", [1]⟩ [⟨"c", "l", [1]⟩] 0).confidence
          = some (cosineSimilarity (fun x => x) [1]
              (([⟨"c", "l", [1]⟩] : List ConceptInput).getD i default).embedding) ∧
      (0 : ℚ) ≤ cosineSimilarity (fun x => x) [1]
          (([⟨"c", "l", [1]⟩] : List ConceptInput).getD i default).embedding ∧
      (∀ j, j < ([⟨"c", "l", [1]⟩] : List ConceptInput).length →
        cosineSimilarity (fun x => x) [1]
            (([⟨"c", "l", [1]⟩] : List ConceptInput).getD j default).embedding
          ≤ cosineSimilarity (fun x => x) [1]
              (([⟨"c", "l", [1]⟩] : List ConceptInput).getD i default).embedding) ∧
      (∀ j, j < i →
        (0 : ℚ) ≤ cosineSimilarity (fun x => x) [1]
            (([⟨"c", "l", [1]⟩] : List ConceptInput).getD j default).embedding →
        cosineSimilarity (fun x => x) [1]
            (([⟨"c", "l", [1]⟩] : List ConceptInput).getD j default).embedding
          < cosineSimilarity (fun x => x) [1]
              (([⟨"c", "l", [1]⟩] : List ConceptInput).getD i default).embedding)) ∧
    (mapCluster (fun x => x) ⟨0, "s", [1]⟩ [] 0).suggestedLabel
        = some (suggestedLabelOf "s") ∧
    suggestedLabelOf (String.mk ['H']) ≠ "" := by
  have hmatched : (mapCluster (fun x => x) ⟨0, "s", [1]⟩ [⟨"c", "l", [1]⟩] 0).matched
      = true :=
    (claim_C9_concept_match (fun x => x) ⟨0, "s", [1]⟩ [⟨"c", "l", [1]⟩] 0).1.mpr
      ⟨⟨"c", "l", [1]⟩, by simp, by norm_num [cosineSimilarity]⟩
  refine ⟨hmatched, ?_, ?_, ?_⟩
  · exact (claim_C9_concept_match (fun x => x) ⟨0, "s", [1]⟩
      [⟨"c", "l", [1]⟩] 0).2.1 hmatched
  · exact (claim_C9_concept_match (fun x => x) ⟨0, "s", [1]⟩ [] 0).2.2.1 rfl
  · exact (claim_C9_concept_match (fun x => x) ⟨0, "s", [1]⟩ [] 0).2.2.2 'H' []
      (by decide)

/-- Claim C10.  `cosineSimilarity` returns `0` whenever the two vectors'
lengths differ (checked before any arithmetic; the function is total, so
`mapCluster` never fails on a mismatched-dimension concept).  Consequently,
in *any* catalogue — mixed ones included — a mismatched-dimension concept
can be reported as the match only when the threshold is `≤ 0`: at a
positive threshold the winning concept always has the centroid's
dimension and the reported confidence (`≥ threshold`) is never the zero
similarity a mismatched concept scores; and over a catalogue of only
mismatched concepts, any reported match forces `threshold ≤ 0`. -/
theorem claim_C10_mismatched_dims (sqrtA : ℚ → ℚ) (cluster : ClusterInput)
    (concepts : List ConceptInput) (threshold : ℚ) :
    (∀ a b : Vec, a.length ≠ b.length → cosineSimilarity sqrtA a b = 0) ∧
    (0 < threshold →
      (mapCluster sqrtA cluster concepts threshold).matched = true →
      ∃ i, i < concepts.length ∧
        (mapCluster sqrtA cluster concepts threshold).conceptId
            = some (concepts.getD i default).id ∧
        (mapCluster sqrtA cluster concepts threshold).confidence
            = some (cosineSimilarity sqrtA cluster.centroid
                (concepts.getD i default).embedding) ∧
        (concepts.getD i default).embedding.length = cluster.centroid.length ∧
        threshold ≤ cosineSimilarity sqrtA cluster.centroid
            (concepts.getD i default).embedding) ∧
    (0 < threshold →
      ∀ j, j < concepts.length →
        (concepts.getD j default).embedding.length ≠ cluster.centroid.length →
        (mapCluster sqrtA cluster concepts threshold).confidence
            ≠ some (cosineSimilarity sqrtA cluster.centroid
                (concepts.getD j default).embedding)) ∧
    ((∀ c ∈ concepts, c.embedding.length ≠ cluster.centroid.length) →
      (mapCluster sqrtA cluster concepts threshold).matched = true →
      threshold ≤ 0) := by
  have hzero : ∀ a b : Vec, a.length ≠ b.length → cosineSimilarity sqrtA a b = 0 := by
    intro a b h
    unfold cosineSimilarity
    rw [if_pos h]
  rcases mapClusterFold_inv sqrtA cluster.centroid threshold concepts with
    ⟨hnone, _⟩ | ⟨i, hi, hsome, hts, _, _⟩
  · have hm : mapCluster sqrtA cluster concepts threshold
        = { clusterId := cluster.id, matched := false, conceptId := none
            confidence := none
            suggestedLabel := some (suggestedLabelOf cluster.summary) } := by
      unfold mapCluster
      rw [hnone]
    refine ⟨hzero, ?_, ?_, ?_⟩
    · intro _ hmt
      rw [hm] at hmt
      simp at hmt
    · intro _ j _ _
      rw [hm]
      intro h
      exact Option.noConfusion h
    · intro _ hmt
      rw [hm] at hmt
      simp at hmt
  · have hm : mapCluster sqrtA cluster concepts threshold
        = { clusterId := cluster.id, matched := true
            conceptId := some (concepts.getD i default).id
            confidence := some (cosineSimilarity sqrtA cluster.centroid
              (concepts.getD i default).embedding)
            suggestedLabel := none } := by
      unfold mapCluster
      rw [hsome]
    have hwinlen : 0 < threshold →
        (concepts.getD i default).embedding.length = cluster.centroid.length := by
      intro ht
      by_contra hne
      have hcz : cosineSimilarity sqrtA cluster.centroid
          (concepts.getD i default).embedding = 0 :=
        hzero _ _ (fun h => hne h.symm)
      rw [hcz] at hts
      exact absurd (lt_of_lt_of_le ht hts) (lt_irrefl 0)
    refine ⟨hzero, ?_, ?_, ?_⟩
    · intro ht _
      exact ⟨i, hi, by rw [hm], by rw [hm], hwinlen ht, hts⟩
    · intro ht j _ hjne
      rw [hm]
      intro h
      have hji := Option.some.inj h
      have hjz : cosineSimilarity sqrtA cluster.centroid
          (concepts.getD j default).embedding = 0 :=
        hzero _ _ (fun hl => hjne hl.symm)
      rw [hjz] at hji
      rw [hji] at hts
      exact absurd (lt_of_lt_of_le ht hts) (lt_irrefl 0)
    · intro hall _
      have hmem := getD_mem_of_lt concepts default hi
      have hlen := hall _ hmem
      have hcz : cosineSimilarity sqrtA cluster.centroid
          (concepts.getD i default).embedding = 0 :=
        hzero _ _ (fun h => hlen h.symm)
      rw [hcz] at hts
      exact hts

/-- Witness for C10 on a *mixed* catalogue: a 2-dimensional concept
(`"bad"`) alongside a well-formed one (`"good"`) against a 1-dimensional
centroid at threshold `1/2` — the reported match is the well-formed
concept and the reported confidence is not the mismatched concept's zero
similarity — plus the all-mismatched corollary at threshold `-1`. -/
theorem claim_C10_mismatched_dims_witness :
    cosineSimilarity (fun x => x) [1] [1, 2] = 0 ∧
    (∃ i, i < ([⟨"bad", "l", [1, 2]⟩, ⟨"good", "l", [1]⟩] : List ConceptInput).length ∧
      (mapCluster (fun x => x) ⟨0, "s", [1]⟩
          [⟨"bad", "l", [1, 2]⟩, ⟨"good", "l", [1]⟩] (1 / 2)).conceptId
        = some (([⟨"bad", "l", [1, 2]⟩, ⟨"good", "l", [1]⟩] :
            List ConceptInput).getD i default).id ∧
      (mapCluster (fun x => x) ⟨0, "s", [1]⟩
          [⟨"bad", "l", [1, 2]⟩, ⟨"good", "l", [1]⟩] (1 / 2)).confidence
        = some (cosineSimilarity (fun x => x)
            (⟨0, "s", [1]⟩ : ClusterInput).centroid
            (([⟨"bad", "l", [1, 2]⟩, ⟨"good", "l", [1]⟩] :
              List ConceptInput).getD i default).embedding) ∧
      (([⟨"bad", "l", [1, 2]⟩, ⟨"good", "l", [1]⟩] :
          List ConceptInput).getD i default).embedding.length
        = (⟨0, "s", [1]⟩ : ClusterInput).centroid.length ∧
      (1 / 2 : ℚ) ≤ cosineSimilarity (fun x => x)
          (⟨0, "s", [1]⟩ : ClusterInput).centroid
          (([⟨"bad", "l", [1, 2]⟩, ⟨"good", "l", [1]⟩] :
            List ConceptInput).getD i default).embedding) ∧
    (mapCluster (fun x => x) ⟨0, "s", [1]⟩
        [⟨"bad", "l", [1, 2]⟩, ⟨"good", "l", [1]⟩] (1 / 2)).confidence
      ≠ some (cosineSimilarity (fun x => x)
          (⟨0, "s", [1]⟩ : ClusterInput).centroid
          (([⟨"bad", "l", [1, 2]⟩, ⟨"good", "l", [1]⟩] :
            List ConceptInput).getD 0 default).embedding) ∧
    (-1 : ℚ) ≤ 0 := by
  have hmatched : (mapCluster (fun x => x) ⟨0, "s", [1]⟩
      [⟨"bad", "l", [1, 2]⟩, ⟨"good", "l", [1]⟩] (1 / 2)).matched = true := by
    norm_num [mapCluster, mapClusterFold, conceptStep, cosineSimilarity]
  have hmatched' : (mapCluster (fun x => x) ⟨0, "s", [1]⟩
      [⟨"c", "l", [1, 2]⟩] (-1)).matched = true := by
    norm_num [mapCluster, mapClusterFold, conceptStep, cosineSimilarity]
  refine ⟨?_, ?_, ?_, ?_⟩
  · exact (claim_C10_mismatched_dims (fun x => x) ⟨0, "s", [1]⟩
      [⟨"bad", "l", [1, 2]⟩, ⟨"good", "l", [1]⟩] (1 / 2)).1 [1] [1, 2] (by decide)
  · exact (claim_C10_mismatched_dims (fun x => x) ⟨0, "s", [1]⟩
      [⟨"bad", "l", [1, 2]⟩, ⟨"good", "l", [1]⟩] (1 / 2)).2.1 (by norm_num) hmatched
  · exact (claim_C10_mismatched_dims (fun x => x) ⟨0, "s", [1]⟩
      [⟨"bad", "l", [1, 2]⟩, ⟨"good", "l", [1]⟩] (1 / 2)).2.2.1 (by norm_num) 0
      (by decide) (by decide)
  · exact (claim_C10_mismatched_dims (fun x => x) ⟨0, "s", [1]⟩
      [⟨"c", "l", [1, 2]⟩] (-1)).2.2.2 (by intro c hc; simp at hc; rw [hc]; decide)
      hmatched'

end PdfBrain
